import Mathlib

/-!
Verification of the batch-captioning orchestrator and server supervisor of
joschek_captioner_v11.py, as a shallow embedding.

Conventions of the embedding:
* Machine state that the Python code mutates is passed explicitly.  The
  cancellation flag self.batch_running is modelled by a read counter: each
  read of the flag consumes one tick, and a run is parametrised by the tick
  at which the flag becomes false (the flag flips from true to false at most
  once during a run, so a read at tick k observes true iff k is below the
  stop tick; stop = none means the flag is never cleared).
* The caption filesystem is a map from caption paths to file contents
  (String to Option String).  Image files are not materialised: reading an
  image and calling the inference endpoint are external effects, so their
  outcomes are supplied by an oracle (Attempt) indexed by folder and image
  position.  Likewise the Tk prompt widget is read through an oracle
  promptOf, indexed by the moment (folder, image) at which run_batch calls
  item.get_prompt().
* UI effects scheduled with root.after, log lines, inference requests and
  file writes are recorded as an ordered event trace (Ev), in the order the
  worker thread issues them.
* glob.glob is modelled as a filter over the directory listing (glob returns
  matches of one pattern in directory enumeration order and skips names
  starting with a dot); the listing order is a parameter of each folder.
* os.path.splitext is modelled as splitting at the last dot; discovered
  image names never start with a dot, so the hidden-file corner of splitext
  does not arise.
* subprocess.Popen is modelled as: the spawn succeeds exactly when the
  executable path (argv head) exists; no other argument is inspected by the
  spawn itself.
-/

/-- Built-in default prompt (DEFAULT_PROMPT in the source). -/
def DEFAULT_PROMPT : String :=
  "Describe this image in detail for an AI training dataset. Focus on clothing, background, textures, and lighting."

/-- Fixed batch-size argument (DEFAULT_BATCH in the source). -/
def DEFAULT_BATCH : String := "512"

/-- Characters of the stem of a file name: everything before the last dot,
or the whole name if there is no dot (models os.path.splitext(...)[0] for
the names produced by discovery). -/
def stemOf (s : String) : String :=
  let r := s.data.reverse
  if r.contains '.' then String.mk (((r.dropWhile (fun c => c ≠ '.')).drop 1).reverse)
  else s

/-- Caption path derived from an image path:
os.path.splitext(img)[0] + ".txt". -/
def captionPathOf (img : String) : String := stemOf img ++ ".txt"

/-- The fixed extension patterns of run_batch and load_editor_images
(["*.png", "*.jpg", "*.jpeg", "*.webp", "*.bmp"], kept as suffixes). -/
def EXTS_PATTERNS : List String := [".png", ".jpg", ".jpeg", ".webp", ".bmp"]

/-- Upper-casing of an extension pattern (ext.upper() in the source),
computed character-wise. -/
def upperOf (ext : String) : String := String.mk (ext.data.map Char.toUpper)

/-- Whether glob.glob with the pattern star-dot-ext matches a directory
entry: the name must end in the extension and, per glob, must not start
with a dot (suffix and head tests are computed over the character list). -/
def globMatch (ext : String) (name : String) : Bool :=
  !(decide (name.data.headD ' ' = '.')) && ext.data.isSuffixOf name.data

/-- Image discovery of run_batch (lines 609-613): for each extension
pattern in order, first the lower-case glob, then the upper-case glob
(ext.upper()), concatenated.  Note: run_batch does NOT sort this list
(unlike load_editor_images, which sorts). -/
def discoverImages (listing : List String) : List String :=
  EXTS_PATTERNS.flatMap fun ext =>
    listing.filter (globMatch ext) ++ listing.filter (globMatch (upperOf ext))

/-- A name matches the fixed raster-image extension set, in either case
variant, and is not hidden. -/
def isImageName (name : String) : Bool :=
  !(decide (name.data.headD ' ' = '.')) &&
    EXTS_PATTERNS.any (fun ext => ext.data.isSuffixOf name.data ||
      (upperOf ext).data.isSuffixOf name.data)

/-- Caption filesystem: caption path to content. -/
def Fs : Type := String → Option String

/-- Writing (creating or truncating-and-writing) a caption file. -/
def fsWrite (fs : Fs) (p c : String) : Fs :=
  fun q => if q = p then some c else fs q

/-! Server supervisor (start_server / stop_server). -/

/-- Handle of the launched server process.  start_server launches with
preexec_fn=os.setsid, so the process leads its own process group. -/
structure ProcHandle where
  pid : ℕ
  pgid : ℕ

/-- os.getpgid applied to a live process. -/
def getpgidOf (p : ProcHandle) : ℕ := p.pgid

/-- Signals used by the supervisor. -/
inductive Sig where
  | sigterm
  deriving DecidableEq, Repr

/-- Actions a background thread may perform. -/
inductive BgAct where
  | waitProc (pid : ℕ)
  deriving DecidableEq, Repr

/-- Actions performed on the calling thread of control.  waitInline is the
blocking wait that the no-hang design must avoid; killPid is a signal to a
single pid (as opposed to a process group). -/
inductive MainAct where
  | killPG (pgid : ℕ) (sig : Sig)
  | killPid (pid : ℕ) (sig : Sig)
  | waitInline (pid : ℕ)
  | spawnThread (acts : List BgAct)
  | afterSchedule (ms : ℕ)
  deriving DecidableEq, Repr

/-- Whether a main-thread action blocks the calling thread until process
exit. -/
def MainAct.isBlocking : MainAct → Bool
  | .waitInline _ => true
  | _ => false

/-- App.stop_server (lines 534-541): if a server process handle is live,
send SIGTERM to its process group via os.killpg(os.getpgid(pid), SIGTERM),
start a daemon thread whose body is server_proc.wait(), and schedule
reset_ui after 100 ms.  The function takes no exit-duration information at
all: its action list does not depend on how long the process takes to
exit. -/
def stopServer (proc : Option ProcHandle) : List MainAct :=
  match proc with
  | none => [MainAct.afterSchedule 100]
  | some p =>
      [MainAct.killPG (getpgidOf p) Sig.sigterm,
       MainAct.spawnThread [BgAct.waitProc p.pid],
       MainAct.afterSchedule 100]

/-- Server configuration fields read by start_server. -/
structure SrvCfg where
  bin : String
  model : String
  proj : String
  port : String
  ctx : String
  gpu : String

/-- The argv list built by start_server (lines 520-523). -/
def buildCmd (c : SrvCfg) : List String :=
  [c.bin, "-m", c.model, "--port", c.port, "--ctx-size", c.ctx,
   "-ngl", c.gpu, "-b", DEFAULT_BATCH] ++
    (if c.proj ≠ "" then ["--mmproj", c.proj] else [])

/-- Outcome of a start attempt: either a process was spawned with the given
argv, or Popen raised and the exception was caught and logged (lines
525-533). -/
inductive StartOutcome where
  | spawned (cmd : List String)
  | errorLogged (msg : String)
  deriving DecidableEq, Repr

/-- Environment semantics of subprocess.Popen: the spawn succeeds exactly
when the executable path (the head of argv) exists; Popen inspects no other
argument. -/
def popenSpawns (pathExists : String → Bool) (cmd : List String) : Bool :=
  pathExists (cmd.headD "")

/-- App.start_server (lines 519-533): build the command from the current
configuration and call Popen directly; there is no existence check of the
binary or the model before the spawn attempt. -/
def startServer (pathExists : String → Bool) (c : SrvCfg) : StartOutcome :=
  let cmd := buildCmd c
  if popenSpawns pathExists cmd then StartOutcome.spawned cmd
  else StartOutcome.errorLogged "FileNotFoundError"

/-! Batch orchestrator (run_batch / toggle_batch). -/

/-- Outcome of the per-image external work, supplied by an oracle:
readFail is raised by open(img, "rb"); callFail by the chat-completions
request; extractFail by resp.choices[0].message.content.strip(), which in
the source is evaluated after open(txt, "w") has truncated the caption
file; success carries the stripped caption text that gets written. -/
inductive Attempt where
  | readFail (err : String)
  | callFail (err : String)
  | extractFail (err : String)
  | success (text : String)
  deriving DecidableEq, Repr

/-- Event trace of a run, in worker-thread issue order.  Folder and image
indices identify the loop iteration that issued the event. -/
inductive Ev where
  | scanStat (f : ℕ)
  | skip (f i : ℕ) (img : String)
  | inferCall (f i : ℕ) (img prompt : String)
  | readErr (f i : ℕ) (img err : String)
  | callErr (f i : ℕ) (img err : String)
  | extractTrunc (f i : ℕ) (txtPath : String)
  | extractErr (f i : ℕ) (img err : String)
  | writeCap (f i : ℕ) (txtPath content : String)
  | okLog (f i : ℕ) (img : String)
  | progress (f i : ℕ) (pct : ℕ)
  | folderStat (f i : ℕ) (done tot : ℕ)
  | finalStat (f : ℕ) (running : Bool)
  deriving DecidableEq, Repr

/-- Final displayed status of a queue folder. -/
inductive FStatus where
  | pending
  | done
  | stopped
  deriving DecidableEq, Repr

/-- A queued folder: its path and the directory listing that glob
enumerates. -/
structure Folder where
  path : String
  listing : List String

/-- Run parameters: the overwrite checkbox, the prompt-widget oracle, the
per-image external-work oracle, and the tick at which the cancellation flag
becomes false (none = never). -/
structure Cfg where
  overwrite : Bool
  promptOf : ℕ → ℕ → String
  attemptOf : ℕ → ℕ → Attempt
  stop : Option ℕ

/-- Worker-thread state: how many flag reads have happened, and the caption
filesystem. -/
structure St where
  reads : ℕ
  fs : Fs

/-- Value observed at the k-th read of self.batch_running. -/
def flagAt (stop : Option ℕ) (k : ℕ) : Bool :=
  match stop with
  | none => true
  | some n => decide (k < n)

/-- One read of self.batch_running: returns the observed value and advances
the read clock. -/
def readFlag (cfg : Cfg) (s : St) : Bool × St :=
  (flagAt cfg.stop s.reads, { s with reads := s.reads + 1 })

/-! Binary64 arithmetic.  Line 642 computes
int(((idx + done / total_imgs) / total) * 100) in IEEE-754 double
precision: done / total_imgs is a correctly rounded quotient, and each of
the subsequent addition, division and multiplication rounds its exact
result to the nearest double (ties to even).  The model below implements
this rounding exactly: a nonnegative double is a pair (mantissa, exponent)
with value m * 2^e, and rnd rounds a nonnegative rational to 53 significant
bits, round-to-nearest, ties-to-even.  The exponent range is unbounded:
overflow cannot occur here without ~2^1024 queue folders (where the real
program raises OverflowError on the int-to-float conversion instead of
emitting anything), and subnormal inputs (a folder with more than 2^1021
images) round identically as far as the final integer truncation can
observe. -/

/-- Fuel-driven base-2 logarithm on naturals (structural recursion so that
concrete runs reduce inside the kernel). -/
def natLog2F : ℕ → ℕ → ℕ
  | 0, _ => 0
  | fuel + 1, n => if n ≤ 1 then 0 else natLog2F fuel (n / 2) + 1

/-- Floor of log2 for a positive natural. -/
def natLog2 (n : ℕ) : ℕ := natLog2F n n

/-- Decides 2^s ≤ a/b by cross-multiplication. -/
def qge2 (a b : ℕ) (s : ℤ) : Bool :=
  if 0 ≤ s then decide (b * 2 ^ s.toNat ≤ a) else decide (b ≤ a * 2 ^ (-s).toNat)

/-- Binade exponent of the positive rational a/b: the e with
2^e ≤ a/b < 2^(e+1). -/
def ratExp (a b : ℕ) : ℤ :=
  let s : ℤ := (natLog2 a : ℤ) - (natLog2 b : ℤ)
  if qge2 a b s then s else s - 1

/-- Round A/B to the nearest integer, ties to even, by integer division. -/
def rheMantissa (A B : ℕ) : ℕ :=
  let q := A / B
  let r := A % B
  if 2 * r < B then q
  else if B < 2 * r then q + 1
  else if q % 2 = 0 then q else q + 1

/-- Specification-level counterpart of rheMantissa: round a nonnegative
rational to the nearest natural, ties to even. -/
def rheN (x : ℚ) : ℕ :=
  if x - ⌊x⌋₊ < 1/2 then ⌊x⌋₊
  else if (1:ℚ)/2 < x - ⌊x⌋₊ then ⌊x⌋₊ + 1
  else if ⌊x⌋₊ % 2 = 0 then ⌊x⌋₊ else ⌊x⌋₊ + 1

/-- Round the nonnegative rational a/b to binary64: scale into the binade
so that the significand has 53 bits, then round to nearest, ties to
even. -/
def rnd (a b : ℕ) : ℕ × ℤ :=
  if a = 0 ∨ b = 0 then (0, 0)
  else
    let γ : ℤ := ratExp a b - 52
    if 0 ≤ γ then (rheMantissa a (b * 2 ^ γ.toNat), γ)
    else (rheMantissa (a * 2 ^ (-γ).toNat) b, γ)

/-- Value of a (mantissa, exponent) pair. -/
def fval (x : ℕ × ℤ) : ℚ := (x.1 : ℚ) * 2 ^ x.2

/-- Round (a * 2^sh) / b to binary64, folding the scaling power into the
fraction. -/
def fshift (a : ℕ) (sh : ℤ) (b : ℕ) : ℕ × ℤ :=
  if 0 ≤ sh then rnd (a * 2 ^ sh.toNat) b else rnd a (b * 2 ^ (-sh).toNat)

/-- Correctly rounded double addition. -/
def fadd2 (x y : ℕ × ℤ) : ℕ × ℤ :=
  let e := min x.2 y.2
  fshift (x.1 * 2 ^ (x.2 - e).toNat + y.1 * 2 ^ (y.2 - e).toNat) e 1

/-- Correctly rounded double division. -/
def fdiv2 (x y : ℕ × ℤ) : ℕ × ℤ := fshift x.1 (x.2 - y.2) y.1

/-- Correctly rounded multiplication of a double by a natural. -/
def fmulN (x : ℕ × ℤ) (k : ℕ) : ℕ × ℤ := fshift (x.1 * k) x.2 1

/-- int() truncation of a nonnegative double. -/
def ftrunc (x : ℕ × ℤ) : ℕ :=
  if 0 ≤ x.2 then x.1 * 2 ^ x.2.toNat else x.1 / 2 ^ (-x.2).toNat

/-- Progress percentage of line 642, evaluated in binary64 exactly as the
program does: int(((idx + done / total_imgs) / total) * 100) if
total_imgs > 0 else 0. -/
def pctFloat (idx done t total : ℕ) : ℕ :=
  if 0 < t then
    ftrunc (fmulN (fdiv2 (fadd2 (rnd idx 1) (rnd done t)) (rnd total 1)) 100)
  else 0

/-- Result of the inner image loop: final state, final done counter, and
the events the loop issued. -/
structure LoopRes where
  st : St
  done : ℕ
  evs : List Ev

/-- The per-image loop of run_batch (lines 615-645).  Parameters: total =
len(self.queue), fIdx = the enumerate index of the folder, t = total_imgs;
then the remaining images, the index of the next image, the done counter
and the state. -/
def imgLoop (cfg : Cfg) (total fIdx t : ℕ) :
    List String → ℕ → ℕ → St → LoopRes
  | [], _, done, s => ⟨s, done, []⟩
  | img :: rest, i, done, s =>
    let rd := readFlag cfg s
    if rd.1 = false then ⟨rd.2, done, []⟩
    else
      let s1 := rd.2
      let txt := captionPathOf img
      if (s1.fs txt).isSome && !cfg.overwrite then
        let r := imgLoop cfg total fIdx t rest (i + 1) (done + 1) s1
        ⟨r.st, r.done, Ev.skip fIdx i img :: r.evs⟩
      else
        let prompt :=
          if cfg.promptOf fIdx i = "" then DEFAULT_PROMPT else cfg.promptOf fIdx i
        match cfg.attemptOf fIdx i with
        | Attempt.readFail e =>
          let r := imgLoop cfg total fIdx t rest (i + 1) done s1
          ⟨r.st, r.done,
            Ev.readErr fIdx i img e
              :: Ev.progress fIdx i (pctFloat fIdx done t total)
              :: Ev.folderStat fIdx i done t :: r.evs⟩
        | Attempt.callFail e =>
          let r := imgLoop cfg total fIdx t rest (i + 1) done s1
          ⟨r.st, r.done,
            Ev.inferCall fIdx i img prompt
              :: Ev.callErr fIdx i img e
              :: Ev.progress fIdx i (pctFloat fIdx done t total)
              :: Ev.folderStat fIdx i done t :: r.evs⟩
        | Attempt.extractFail e =>
          let s2 : St := { s1 with fs := fsWrite s1.fs txt "" }
          let r := imgLoop cfg total fIdx t rest (i + 1) done s2
          ⟨r.st, r.done,
            Ev.inferCall fIdx i img prompt
              :: Ev.extractTrunc fIdx i txt
              :: Ev.extractErr fIdx i img e
              :: Ev.progress fIdx i (pctFloat fIdx done t total)
              :: Ev.folderStat fIdx i done t :: r.evs⟩
        | Attempt.success c =>
          let s2 : St := { s1 with fs := fsWrite s1.fs txt c }
          let r := imgLoop cfg total fIdx t rest (i + 1) (done + 1) s2
          ⟨r.st, r.done,
            Ev.inferCall fIdx i img prompt
              :: Ev.writeCap fIdx i txt c
              :: Ev.okLog fIdx i img
              :: Ev.progress fIdx i (pctFloat fIdx (done + 1) t total)
              :: Ev.folderStat fIdx i (done + 1) t :: r.evs⟩

/-- Result of the folder loop: final state, events, and the final displayed
status of each remaining folder. -/
structure FRes where
  st : St
  evs : List Ev
  statuses : List FStatus

/-- The folder loop of run_batch (lines 605-647): check the flag at the top
(break leaves the rest untouched, i.e. pending), set the Scanning status,
discover images, run the image loop, then read the flag once more (the
r = self.batch_running capture of line 646) to decide between the Done and
the Stopped final status. -/
def folderLoop (cfg : Cfg) (total : ℕ) :
    List Folder → ℕ → St → FRes
  | [], _, s => ⟨s, [], []⟩
  | f :: rest, idx, s =>
    let rd := readFlag cfg s
    if rd.1 = false then
      ⟨rd.2, [], FStatus.pending :: rest.map (fun _ => FStatus.pending)⟩
    else
      let imgs := discoverImages f.listing
      let t := imgs.length
      let il := imgLoop cfg total idx t imgs 0 0 rd.2
      let rd2 := readFlag cfg il.st
      let fr := folderLoop cfg total rest (idx + 1) rd2.2
      ⟨fr.st,
       Ev.scanStat idx :: (il.evs ++ Ev.finalStat idx rd2.1 :: fr.evs),
       (if rd2.1 then FStatus.done else FStatus.stopped) :: fr.statuses⟩

/-- App.run_batch (lines 598-650) over an initial caption filesystem: total
is len(self.queue); the empty queue produces no events and no statuses. -/
def runBatchFn (cfg : Cfg) (queue : List Folder) (fs0 : Fs) : FRes :=
  folderLoop cfg queue.length queue 0 ⟨0, fs0⟩

/-- UI-side events of toggle_batch. -/
inductive ToggleEv where
  | probeCall
  | connErrShown (err : String)
  | statusLogCleared
  | runStarted
  deriving DecidableEq, Repr

/-- Result of toggle_batch: the new value of self.batch_running as set on
the controller, the controller-side events, and the batch run performed by
the spawned worker thread (none when no thread was started). -/
structure ToggleRes where
  running : Bool
  uiEvs : List ToggleEv
  run : Option FRes

/-- App.toggle_batch (lines 580-597), start path and stop path.  The start
path constructs the OpenAI client and issues a single models.list() probe;
on failure it shows a connection error and returns without touching the
queue, the status log, the flag or the filesystem; on success it clears the
status log, sets the flag and starts the run_batch worker. -/
def toggleBatch (cfg : Cfg) (queue : List Folder) (fs0 : Fs)
    (running : Bool) (probe : Except String Unit) : ToggleRes :=
  if running then ⟨false, [], none⟩
  else
    match probe with
    | Except.error e => ⟨false, [ToggleEv.probeCall, ToggleEv.connErrShown e], none⟩
    | Except.ok _ =>
        ⟨true,
         [ToggleEv.probeCall, ToggleEv.statusLogCleared, ToggleEv.runStarted],
         some (runBatchFn cfg queue fs0)⟩

/-- Final caption filesystem after a toggle_batch call. -/
def finalFsOf (t : ToggleRes) (fs0 : Fs) : Fs :=
  match t.run with
  | none => fs0
  | some r => r.st.fs

/-- Final folder statuses after a toggle_batch call (items start out
pending). -/
def statusesOf (t : ToggleRes) (queue : List Folder) : List FStatus :=
  match t.run with
  | none => queue.map fun _ => FStatus.pending
  | some r => r.statuses

/-! Trace observations. -/

/-- Folder index that issued an event. -/
def evFolder : Ev → ℕ
  | .scanStat f => f
  | .skip f _ _ => f
  | .inferCall f _ _ _ => f
  | .readErr f _ _ _ => f
  | .callErr f _ _ _ => f
  | .extractTrunc f _ _ => f
  | .extractErr f _ _ _ => f
  | .writeCap f _ _ _ => f
  | .okLog f _ _ => f
  | .progress f _ _ => f
  | .folderStat f _ _ _ => f
  | .finalStat f _ => f

/-- Image index that issued an event (none for folder-scoped events). -/
def evImg : Ev → Option ℕ
  | .scanStat _ => none
  | .finalStat _ _ => none
  | .skip _ i _ => some i
  | .inferCall _ i _ _ => some i
  | .readErr _ i _ _ => some i
  | .callErr _ i _ _ => some i
  | .extractTrunc _ i _ => some i
  | .extractErr _ i _ _ => some i
  | .writeCap _ i _ _ => some i
  | .okLog _ i _ => some i
  | .progress _ i _ => some i
  | .folderStat _ i _ _ => some i

/-- The sequence of progress percentages pushed to the progress bar. -/
def progressVals (evs : List Ev) : List ℕ :=
  evs.filterMap fun ev =>
    match ev with
    | .progress _ _ p => some p
    | _ => none

/-- The sequence of images of folder f that the run handled (skipped, or
attempted: an attempt begins with the image read for non-skipped images, so
its first event is readErr or inferCall). -/
def handledIn (f : ℕ) (evs : List Ev) : List String :=
  evs.filterMap fun ev =>
    match ev with
    | .skip f' _ img => if f' = f then some img else none
    | .inferCall f' _ img _ => if f' = f then some img else none
    | .readErr f' _ img _ => if f' = f then some img else none
    | _ => none

/-- The image-loop result produced while processing one folder (shorthand
used to state unfolding equations of folderLoop). -/
def ilOf (cfg : Cfg) (total idx : ℕ) (f : Folder) (s : St) : LoopRes :=
  imgLoop cfg total idx (discoverImages f.listing).length
    (discoverImages f.listing) 0 0 ⟨s.reads + 1, s.fs⟩

/-- The folder-loop result on the remaining folders after one folder was
processed (shorthand used to state unfolding equations of folderLoop). -/
def frOf (cfg : Cfg) (total idx : ℕ) (f : Folder) (rest : List Folder) (s : St) : FRes :=
  folderLoop cfg total rest (idx + 1)
    ⟨(ilOf cfg total idx f s).st.reads + 1, (ilOf cfg total idx f s).st.fs⟩


/-- Lexicographic comparison of two character sequences by code point (the
order in which Python sorts path strings); used only to state order facts
about discovery. -/
def lexLt : List Char → List Char → Bool
  | [], [] => false
  | [], _ :: _ => true
  | _ :: _, [] => false
  | a :: as, b :: bs =>
    if a.toNat < b.toNat then true
    else if b.toNat < a.toNat then false
    else lexLt as bs

/-! Concrete instances used by witnesses and counterexamples. -/

/-- Prompt oracle that always reads "P". -/
def promptP : ℕ → ℕ → String := fun _ _ => "P"

/-- Prompt oracle whose widget is empty at every read. -/
def promptEmpty : ℕ → ℕ → String := fun _ _ => ""

/-- Prompt oracle for a widget holding "A" when the folder starts (image 0
read) and edited to "B" before the second image is read. -/
def promptEdit : ℕ → ℕ → String := fun _ i => if i = 0 then "A" else "B"

/-- Every inference attempt succeeds with the caption "cap". -/
def attemptOkCap : ℕ → ℕ → Attempt := fun _ _ => Attempt.success "cap"

/-- The first image of each folder fails at open(img, "rb"); the rest
succeed. -/
def attemptMix : ℕ → ℕ → Attempt :=
  fun _ i => if i = 0 then Attempt.readFail "io" else Attempt.success "cap"

/-- Every response extraction raises (e.g. message.content is null). -/
def attemptNone : ℕ → ℕ → Attempt := fun _ _ => Attempt.extractFail "attr"

/-- Baseline run parameters: overwrite off, never stopped, all successes. -/
def cfgOk : Cfg := ⟨false, promptP, attemptOkCap, none⟩

/-- Run in which the cancellation flag reads false from the fifth read on. -/
def cfgStop5 : Cfg := ⟨false, promptP, attemptOkCap, some 5⟩

/-- Run whose prompt widget is empty. -/
def cfgEmptyPrompt : Cfg := ⟨false, promptEmpty, attemptOkCap, none⟩

/-- Run whose prompt widget is edited mid-folder. -/
def cfgEdit : Cfg := ⟨false, promptEdit, attemptOkCap, none⟩

/-- Run with one failing image per folder. -/
def cfgMix : Cfg := ⟨false, promptP, attemptMix, none⟩

/-- Run whose response extraction always raises. -/
def cfgNone : Cfg := ⟨false, promptP, attemptNone, none⟩

/-- Empty caption filesystem. -/
def fsEmpty : Fs := fun _ => none

/-- Filesystem in which a.txt already holds the caption "old". -/
def fsWithA : Fs := fun q => if q = "a.txt" then some "old" else none

/-- One folder with one image. -/
def queueOne : List Folder := [⟨"d", ["a.png"]⟩]

/-- One folder with two images. -/
def queueTwo : List Folder := [⟨"d", ["i1.png", "i2.png"]⟩]

/-- One folder whose listing is already sorted but mixes extensions. -/
def queueAB : List Folder := [⟨"d", ["a.jpg", "b.png"]⟩]

/-- One folder with two images, the first already captioned in fsWithA. -/
def queueSkipTwo : List Folder := [⟨"d", ["a.png", "b.png"]⟩]

/-- Three folders with one image each. -/
def queueThree : List Folder :=
  [⟨"f", ["a.png"]⟩, ⟨"g", ["b.png"]⟩, ⟨"h", ["c.png"]⟩]

/-- Filesystem-existence oracle: only the server binary exists. -/
def existsBinOnly : String → Bool := fun p => decide (p = "/bin/llama-server")

/-- Filesystem-existence oracle: nothing exists. -/
def existsNothing : String → Bool := fun _ => false

/-- A server configuration whose binary exists but whose model path does
not. -/
def srvCfgX : SrvCfg :=
  ⟨"/bin/llama-server", "/missing/model.gguf", "", "11434", "8192", "99"⟩

/-! Step equations and basic lemmas. -/

lemma readFlag_snd (cfg : Cfg) (s : St) : (readFlag cfg s).2 = ⟨s.reads + 1, s.fs⟩ := rfl

lemma readFlag_fst (cfg : Cfg) (s : St) : (readFlag cfg s).1 = flagAt cfg.stop s.reads := rfl

lemma flagAt_mono_false {stop : Option ℕ} {k k2 : ℕ} (hk : k ≤ k2)
    (h : flagAt stop k = false) : flagAt stop k2 = false := by
  cases stop with
  | none => simp [flagAt] at h
  | some n =>
      simp only [flagAt, decide_eq_false_iff_not] at h ⊢
      omega

lemma imgLoop_nil (cfg : Cfg) (total f t i done : ℕ) (s : St) :
    imgLoop cfg total f t [] i done s = ⟨s, done, []⟩ := rfl

lemma imgLoop_break {cfg : Cfg} {s : St} (total f t : ℕ) (img : String)
    (rest : List String) (i done : ℕ) (h : flagAt cfg.stop s.reads = false) :
    imgLoop cfg total f t (img :: rest) i done s = ⟨⟨s.reads + 1, s.fs⟩, done, []⟩ := by
  simp [imgLoop, readFlag, h]

lemma imgLoop_skip {cfg : Cfg} {s : St} {img : String} (total f t : ℕ)
    (rest : List String) (i done : ℕ) (h : flagAt cfg.stop s.reads = true)
    (hc : ((s.fs (captionPathOf img)).isSome && !cfg.overwrite) = true) :
    imgLoop cfg total f t (img :: rest) i done s =
      ⟨(imgLoop cfg total f t rest (i + 1) (done + 1) ⟨s.reads + 1, s.fs⟩).st,
       (imgLoop cfg total f t rest (i + 1) (done + 1) ⟨s.reads + 1, s.fs⟩).done,
       Ev.skip f i img
         :: (imgLoop cfg total f t rest (i + 1) (done + 1) ⟨s.reads + 1, s.fs⟩).evs⟩ := by
  simp [imgLoop, readFlag, h, hc]

lemma imgLoop_readFail {cfg : Cfg} {s : St} {img e : String} (total f t : ℕ)
    (rest : List String) (i done : ℕ) (h : flagAt cfg.stop s.reads = true)
    (hc : ((s.fs (captionPathOf img)).isSome && !cfg.overwrite) = false)
    (ha : cfg.attemptOf f i = Attempt.readFail e) :
    imgLoop cfg total f t (img :: rest) i done s =
      ⟨(imgLoop cfg total f t rest (i + 1) done ⟨s.reads + 1, s.fs⟩).st,
       (imgLoop cfg total f t rest (i + 1) done ⟨s.reads + 1, s.fs⟩).done,
       Ev.readErr f i img e
         :: Ev.progress f i (pctFloat f done t total)
         :: Ev.folderStat f i done t
         :: (imgLoop cfg total f t rest (i + 1) done ⟨s.reads + 1, s.fs⟩).evs⟩ := by
  simp [imgLoop, readFlag, h, hc, ha]

lemma imgLoop_callFail {cfg : Cfg} {s : St} {img e : String} (total f t : ℕ)
    (rest : List String) (i done : ℕ) (h : flagAt cfg.stop s.reads = true)
    (hc : ((s.fs (captionPathOf img)).isSome && !cfg.overwrite) = false)
    (ha : cfg.attemptOf f i = Attempt.callFail e) :
    imgLoop cfg total f t (img :: rest) i done s =
      ⟨(imgLoop cfg total f t rest (i + 1) done ⟨s.reads + 1, s.fs⟩).st,
       (imgLoop cfg total f t rest (i + 1) done ⟨s.reads + 1, s.fs⟩).done,
       Ev.inferCall f i img
           (if cfg.promptOf f i = "" then DEFAULT_PROMPT else cfg.promptOf f i)
         :: Ev.callErr f i img e
         :: Ev.progress f i (pctFloat f done t total)
         :: Ev.folderStat f i done t
         :: (imgLoop cfg total f t rest (i + 1) done ⟨s.reads + 1, s.fs⟩).evs⟩ := by
  simp [imgLoop, readFlag, h, hc, ha]

lemma imgLoop_extractFail {cfg : Cfg} {s : St} {img e : String} (total f t : ℕ)
    (rest : List String) (i done : ℕ) (h : flagAt cfg.stop s.reads = true)
    (hc : ((s.fs (captionPathOf img)).isSome && !cfg.overwrite) = false)
    (ha : cfg.attemptOf f i = Attempt.extractFail e) :
    imgLoop cfg total f t (img :: rest) i done s =
      ⟨(imgLoop cfg total f t rest (i + 1) done
          ⟨s.reads + 1, fsWrite s.fs (captionPathOf img) ""⟩).st,
       (imgLoop cfg total f t rest (i + 1) done
          ⟨s.reads + 1, fsWrite s.fs (captionPathOf img) ""⟩).done,
       Ev.inferCall f i img
           (if cfg.promptOf f i = "" then DEFAULT_PROMPT else cfg.promptOf f i)
         :: Ev.extractTrunc f i (captionPathOf img)
         :: Ev.extractErr f i img e
         :: Ev.progress f i (pctFloat f done t total)
         :: Ev.folderStat f i done t
         :: (imgLoop cfg total f t rest (i + 1) done
              ⟨s.reads + 1, fsWrite s.fs (captionPathOf img) ""⟩).evs⟩ := by
  simp [imgLoop, readFlag, h, hc, ha]

lemma imgLoop_success {cfg : Cfg} {s : St} {img c : String} (total f t : ℕ)
    (rest : List String) (i done : ℕ) (h : flagAt cfg.stop s.reads = true)
    (hc : ((s.fs (captionPathOf img)).isSome && !cfg.overwrite) = false)
    (ha : cfg.attemptOf f i = Attempt.success c) :
    imgLoop cfg total f t (img :: rest) i done s =
      ⟨(imgLoop cfg total f t rest (i + 1) (done + 1)
          ⟨s.reads + 1, fsWrite s.fs (captionPathOf img) c⟩).st,
       (imgLoop cfg total f t rest (i + 1) (done + 1)
          ⟨s.reads + 1, fsWrite s.fs (captionPathOf img) c⟩).done,
       Ev.inferCall f i img
           (if cfg.promptOf f i = "" then DEFAULT_PROMPT else cfg.promptOf f i)
         :: Ev.writeCap f i (captionPathOf img) c
         :: Ev.okLog f i img
         :: Ev.progress f i (pctFloat f (done + 1) t total)
         :: Ev.folderStat f i (done + 1) t
         :: (imgLoop cfg total f t rest (i + 1) (done + 1)
              ⟨s.reads + 1, fsWrite s.fs (captionPathOf img) c⟩).evs⟩ := by
  simp [imgLoop, readFlag, h, hc, ha]

lemma folderLoop_nil (cfg : Cfg) (total idx : ℕ) (s : St) :
    folderLoop cfg total [] idx s = ⟨s, [], []⟩ := rfl

lemma folderLoop_break {cfg : Cfg} {s : St} (total : ℕ) (f : Folder)
    (rest : List Folder) (idx : ℕ) (h : flagAt cfg.stop s.reads = false) :
    folderLoop cfg total (f :: rest) idx s =
      ⟨⟨s.reads + 1, s.fs⟩, [],
       FStatus.pending :: rest.map (fun _ => FStatus.pending)⟩ := by
  simp [folderLoop, readFlag, h]

lemma folderLoop_cons {cfg : Cfg} {s : St} (total : ℕ) (f : Folder)
    (rest : List Folder) (idx : ℕ) (h : flagAt cfg.stop s.reads = true) :
    folderLoop cfg total (f :: rest) idx s =
      let il := imgLoop cfg total idx (discoverImages f.listing).length
        (discoverImages f.listing) 0 0 ⟨s.reads + 1, s.fs⟩
      let r2 := flagAt cfg.stop il.st.reads
      let fr := folderLoop cfg total rest (idx + 1) ⟨il.st.reads + 1, il.st.fs⟩
      ⟨fr.st,
       Ev.scanStat idx :: (il.evs ++ Ev.finalStat idx r2 :: fr.evs),
       (if r2 then FStatus.done else FStatus.stopped) :: fr.statuses⟩ := by
  simp [folderLoop, readFlag, h]

/-! Correctness of the binary64 rounding model. -/

lemma natLog2F_spec : ∀ fuel n : ℕ, 1 ≤ n → n ≤ fuel →
    2 ^ natLog2F fuel n ≤ n ∧ n < 2 ^ (natLog2F fuel n + 1) := by
  intro fuel
  induction fuel with
  | zero => intro n h1 h2; omega
  | succ fuel ih =>
    intro n h1 h2
    by_cases hn : n ≤ 1
    · have hn1 : n = 1 := by omega
      subst hn1
      simp [natLog2F]
    · have h1' : 1 ≤ n / 2 := by omega
      have h2' : n / 2 ≤ fuel := by omega
      obtain ⟨ha, hb⟩ := ih (n / 2) h1' h2'
      have hval : natLog2F (fuel + 1) n = natLog2F fuel (n / 2) + 1 := by
        simp [natLog2F, hn]
      rw [hval, pow_succ, pow_succ]
      rw [pow_succ] at hb
      omega

lemma natLog2_spec {n : ℕ} (h : 1 ≤ n) :
    2 ^ natLog2 n ≤ n ∧ n < 2 ^ (natLog2 n + 1) :=
  natLog2F_spec n n h (Nat.le_refl n)

lemma zpow_toNat {sh : ℤ} (hsh : 0 ≤ sh) : (2:ℚ) ^ sh = 2 ^ sh.toNat := by
  conv_lhs => rw [← Int.toNat_of_nonneg hsh]
  exact zpow_natCast 2 sh.toNat

lemma qge2_iff {a b : ℕ} (hb : 1 ≤ b) (s : ℤ) :
    qge2 a b s = true ↔ (2:ℚ) ^ s ≤ (a : ℚ) / b := by
  have hb0 : (0:ℚ) < b := by exact_mod_cast hb
  unfold qge2
  split
  case isTrue hs =>
    simp only [decide_eq_true_eq]
    rw [le_div_iff₀ hb0]
    have key : (2:ℚ) ^ s * (b:ℚ) = ((b * 2 ^ s.toNat : ℕ) : ℚ) := by
      rw [zpow_toNat hs]
      push_cast
      ring
    rw [key]
    exact (Nat.cast_le (α := ℚ)).symm
  case isFalse hs =>
    simp only [decide_eq_true_eq]
    rw [le_div_iff₀ hb0]
    have hsn : (0:ℤ) ≤ -s := by omega
    have h2p : (0:ℚ) < 2 ^ (-s) := by positivity
    have hiff : (2:ℚ) ^ s * b ≤ a ↔ (b:ℚ) ≤ a * 2 ^ (-s) := by
      rw [show (2:ℚ) ^ s = (2 ^ (-s))⁻¹ from by rw [← zpow_neg, neg_neg],
        inv_mul_eq_div, div_le_iff₀ h2p]
    rw [hiff, zpow_toNat hsn]
    constructor
    · intro h
      exact_mod_cast h
    · intro h
      exact_mod_cast h

lemma ratExp_spec {a b : ℕ} (ha : 1 ≤ a) (hb : 1 ≤ b) :
    (2:ℚ) ^ ratExp a b ≤ (a:ℚ) / b ∧ (a:ℚ) / b < 2 ^ (ratExp a b + 1) := by
  obtain ⟨ha1, ha2⟩ := natLog2_spec ha
  obtain ⟨hb1, hb2⟩ := natLog2_spec hb
  have hb0 : (0:ℚ) < b := by exact_mod_cast hb
  set La := natLog2 a with hLa
  set Lb := natLog2 b with hLb
  set s : ℤ := (La : ℤ) - (Lb : ℤ) with hs
  have hU : (a:ℚ) / b < 2 ^ (s + 1) := by
    rw [div_lt_iff₀ hb0]
    have c1 : (a:ℚ) < 2 ^ ((La : ℤ) + 1) := by
      have : (a:ℚ) < ((2 ^ (La + 1) : ℕ) : ℚ) := by exact_mod_cast ha2
      calc (a:ℚ) < ((2 ^ (La + 1) : ℕ) : ℚ) := this
        _ = 2 ^ ((La : ℤ) + 1) := by
            rw [show ((La : ℤ) + 1) = ((La + 1 : ℕ) : ℤ) by push_cast; ring,
              zpow_natCast]
            push_cast
            ring
    have c2 : (2:ℚ) ^ ((La : ℤ) + 1) = 2 ^ (s + 1) * 2 ^ (Lb : ℤ) := by
      rw [← zpow_add₀ (two_ne_zero (α := ℚ))]
      congr 1
      omega
    have c3 : (2:ℚ) ^ (Lb : ℤ) ≤ b := by
      have : ((2 ^ Lb : ℕ) : ℚ) ≤ b := by exact_mod_cast hb1
      calc (2:ℚ) ^ (Lb : ℤ) = ((2 ^ Lb : ℕ) : ℚ) := by
            rw [zpow_natCast]; push_cast; ring
        _ ≤ b := this
    calc (a:ℚ) < 2 ^ ((La : ℤ) + 1) := c1
      _ = 2 ^ (s + 1) * 2 ^ (Lb : ℤ) := c2
      _ ≤ 2 ^ (s + 1) * b :=
          mul_le_mul_of_nonneg_left c3 (zpow_nonneg (by norm_num) _)
  have hL : (2:ℚ) ^ (s - 1) < (a:ℚ) / b := by
    rw [lt_div_iff₀ hb0]
    have c1 : (b:ℚ) < 2 ^ ((Lb : ℤ) + 1) := by
      have : (b:ℚ) < ((2 ^ (Lb + 1) : ℕ) : ℚ) := by exact_mod_cast hb2
      calc (b:ℚ) < ((2 ^ (Lb + 1) : ℕ) : ℚ) := this
        _ = 2 ^ ((Lb : ℤ) + 1) := by
            rw [show ((Lb : ℤ) + 1) = ((Lb + 1 : ℕ) : ℤ) by push_cast; ring,
              zpow_natCast]
            push_cast
            ring
    have c2 : (2:ℚ) ^ (s - 1) * 2 ^ ((Lb : ℤ) + 1) = 2 ^ ((La : ℤ)) := by
      rw [← zpow_add₀ (two_ne_zero (α := ℚ))]
      congr 1
      omega
    have c3 : (2:ℚ) ^ ((La : ℤ)) ≤ a := by
      have : ((2 ^ La : ℕ) : ℚ) ≤ a := by exact_mod_cast ha1
      calc (2:ℚ) ^ ((La : ℤ)) = ((2 ^ La : ℕ) : ℚ) := by
            rw [zpow_natCast]; push_cast; ring
        _ ≤ a := this
    have hpos : (0:ℚ) < 2 ^ (s - 1) := by positivity
    calc (2:ℚ) ^ (s - 1) * b < 2 ^ (s - 1) * 2 ^ ((Lb : ℤ) + 1) := by
          exact mul_lt_mul_of_pos_left c1 hpos
      _ = 2 ^ ((La : ℤ)) := c2
      _ ≤ a := c3
  unfold ratExp
  rw [← hLa, ← hLb, ← hs]
  by_cases hq : qge2 a b s = true
  · rw [if_pos hq]
    exact ⟨(qge2_iff hb s).mp hq, hU⟩
  · rw [if_neg hq]
    have hlt : (a:ℚ) / b < 2 ^ s := by
      have := (qge2_iff hb s).not.mp hq
      exact lt_of_not_le this
    refine ⟨le_of_lt hL, ?_⟩
    have : s - 1 + 1 = s := by omega
    rw [this]
    exact hlt

lemma rheN_natCast (n : ℕ) : rheN (n : ℚ) = n := by
  unfold rheN
  rw [Nat.floor_natCast]
  norm_num

lemma rheN_ge_floor (x : ℚ) : ⌊x⌋₊ ≤ rheN x := by
  unfold rheN
  split_ifs <;> omega

lemma rheN_le_floor_succ (x : ℚ) : rheN x ≤ ⌊x⌋₊ + 1 := by
  unfold rheN
  split_ifs <;> omega

lemma rheN_mono {x y : ℚ} (hxy : x ≤ y) : rheN x ≤ rheN y := by
  have hf := Nat.floor_mono hxy
  rcases lt_or_eq_of_le hf with hlt | heq
  · calc rheN x ≤ ⌊x⌋₊ + 1 := rheN_le_floor_succ x
      _ ≤ ⌊y⌋₊ := hlt
      _ ≤ rheN y := rheN_ge_floor y
  · have hsub : x - ⌊x⌋₊ ≤ y - ⌊y⌋₊ := by
      rw [← heq]
      exact sub_le_sub_right hxy _
    unfold rheN
    rw [← heq]
    split_ifs <;> first | omega | (exfalso; linarith)

lemma rheMantissa_eq {A B : ℕ} (hB : 1 ≤ B) :
    rheMantissa A B = rheN ((A:ℚ) / B) := by
  have hB0 : (0:ℚ) < B := by exact_mod_cast hB
  have hfloor : ⌊(A:ℚ) / B⌋₊ = A / B := by
    rw [Nat.floor_div_nat, Nat.floor_natCast]
  have hfrac : (A:ℚ) / B - ((A / B : ℕ) : ℚ) = ((A % B : ℕ) : ℚ) / B := by
    have hmod : (A:ℚ) = ((B * (A / B) + A % B : ℕ) : ℚ) := by
      exact_mod_cast (Nat.div_add_mod A B).symm
    rw [div_sub' _ _ _ (ne_of_gt hB0), hmod]
    push_cast
    ring_nf
  have hc1 : (((A % B : ℕ) : ℚ) / B < 1/2) = (2 * (A % B) < B) := by
    apply propext
    rw [div_lt_div_iff₀ hB0 (by norm_num : (0:ℚ) < 2), one_mul, mul_comm]
    exact_mod_cast Iff.rfl
  have hc2 : ((1:ℚ)/2 < ((A % B : ℕ) : ℚ) / B) = (B < 2 * (A % B)) := by
    apply propext
    rw [div_lt_div_iff₀ (by norm_num : (0:ℚ) < 2) hB0, one_mul, mul_comm]
    exact_mod_cast Iff.rfl
  unfold rheMantissa rheN
  simp only [hfloor, hfrac, hc1, hc2]

lemma fval_nonneg (x : ℕ × ℤ) : 0 ≤ fval x := by
  unfold fval
  positivity

lemma rnd_zero (b : ℕ) : rnd 0 b = (0, 0) := by
  simp [rnd]

lemma rnd_eq {a b : ℕ} (ha : 1 ≤ a) (hb : 1 ≤ b) :
    fval (rnd a b) =
      (rheN ((a:ℚ) / b / 2 ^ (ratExp a b - 52)) : ℚ) * 2 ^ (ratExp a b - 52) := by
  have hne : ¬(a = 0 ∨ b = 0) := by omega
  have hbq : (b:ℚ) ≠ 0 := Nat.cast_ne_zero.mpr (by omega)
  set γ : ℤ := ratExp a b - 52 with hγ
  unfold rnd
  rw [if_neg hne, ← hγ]
  by_cases hγ0 : 0 ≤ γ
  · rw [if_pos hγ0]
    have hB : 1 ≤ b * 2 ^ γ.toNat := Nat.one_le_iff_ne_zero.mpr (by positivity)
    have harg : ((a :ℕ) : ℚ) / ((b * 2 ^ γ.toNat : ℕ) : ℚ) = (a:ℚ) / b / 2 ^ γ := by
      push_cast
      rw [← zpow_toNat hγ0, div_div]
    unfold fval
    rw [rheMantissa_eq hB, harg]
  · rw [if_neg hγ0]
    have harg : ((a * 2 ^ (-γ).toNat : ℕ) : ℚ) / ((b :ℕ) : ℚ) = (a:ℚ) / b / 2 ^ γ := by
      have h2γ : (2:ℚ) ^ γ ≠ 0 := by positivity
      push_cast
      rw [← zpow_toNat (by omega : (0:ℤ) ≤ -γ), zpow_neg]
      field_simp
      left
      ring
    unfold fval
    rw [rheMantissa_eq hb, harg]

lemma zpow_div_binade53 (e : ℤ) : (2:ℚ) ^ (e + 1) / 2 ^ (e - 52) = ((2 ^ 53 : ℕ) : ℚ) := by
  rw [← zpow_sub₀ (two_ne_zero (α := ℚ))]
  have h1 : e + 1 - (e - 52) = ((53 : ℕ) : ℤ) := by omega
  rw [h1, zpow_natCast]
  push_cast
  ring

lemma zpow_div_binade52 (e : ℤ) : (2:ℚ) ^ e / 2 ^ (e - 52) = ((2 ^ 52 : ℕ) : ℚ) := by
  rw [← zpow_sub₀ (two_ne_zero (α := ℚ))]
  have h1 : e - (e - 52) = ((52 : ℕ) : ℤ) := by omega
  rw [h1, zpow_natCast]
  push_cast
  ring

lemma rnd_mono {a1 b1 a2 b2 : ℕ} (hb1 : 1 ≤ b1) (hb2 : 1 ≤ b2)
    (h : (a1:ℚ) / b1 ≤ (a2:ℚ) / b2) : fval (rnd a1 b1) ≤ fval (rnd a2 b2) := by
  rcases Nat.eq_zero_or_pos a1 with rfl | ha1
  · rw [rnd_zero]
    simpa [fval] using fval_nonneg (rnd a2 b2)
  rcases Nat.eq_zero_or_pos a2 with rfl | ha2
  · exfalso
    have hp : (0:ℚ) < (a1:ℚ) / b1 := by positivity
    have hz : ((0:ℕ):ℚ) / (b2:ℚ) = 0 := by norm_num
    rw [hz] at h
    linarith
  obtain ⟨l1, u1⟩ := ratExp_spec ha1 hb1
  obtain ⟨l2, u2⟩ := ratExp_spec ha2 hb2
  set e1 := ratExp a1 b1 with he1
  set e2 := ratExp a2 b2 with he2
  have he : e1 ≤ e2 := by
    by_contra hc
    push_neg at hc
    have hstep : (2:ℚ) ^ (e2 + 1) ≤ 2 ^ e1 :=
      zpow_le_zpow_right₀ one_le_two (by omega)
    have : (a2:ℚ) / b2 < (a1:ℚ) / b1 := lt_of_lt_of_le u2 (le_trans hstep l1)
    linarith
  have hq1pos : (0:ℚ) ≤ (a1:ℚ) / b1 := by positivity
  have hq2pos : (0:ℚ) ≤ (a2:ℚ) / b2 := by positivity
  rw [rnd_eq ha1 hb1, rnd_eq ha2 hb2, ← he1, ← he2]
  rcases eq_or_lt_of_le he with heq | hlt
  · rw [← heq]
    have hdm : (a1:ℚ) / b1 / 2 ^ (e1 - 52) ≤ (a2:ℚ) / b2 / 2 ^ (e1 - 52) := by
      have hpos : (0:ℚ) < 2 ^ (e1 - 52) := by positivity
      rw [div_le_div_iff_of_pos_right hpos]
      exact h
    exact mul_le_mul_of_nonneg_right (Nat.cast_le.mpr (rheN_mono hdm))
      (zpow_nonneg (by norm_num) _)
  · have hpos1 : (0:ℚ) < 2 ^ (e1 - 52) := by positivity
    have hpos2 : (0:ℚ) < 2 ^ (e2 - 52) := by positivity
    have step1 : (rheN ((a1:ℚ) / b1 / 2 ^ (e1 - 52)) : ℚ) * 2 ^ (e1 - 52)
        ≤ (2:ℚ) ^ (e1 + 1) := by
      have hm : rheN ((a1:ℚ) / b1 / 2 ^ (e1 - 52)) ≤ 2 ^ 53 := by
        have := rheN_mono (show (a1:ℚ) / b1 / 2 ^ (e1 - 52)
            ≤ (2:ℚ) ^ (e1 + 1) / 2 ^ (e1 - 52) from by
          rw [div_le_div_iff_of_pos_right hpos1]
          exact le_of_lt u1)
        rw [zpow_div_binade53, rheN_natCast] at this
        exact this
      calc (rheN ((a1:ℚ) / b1 / 2 ^ (e1 - 52)) : ℚ) * 2 ^ (e1 - 52)
          ≤ ((2 ^ 53 : ℕ) : ℚ) * 2 ^ (e1 - 52) :=
            mul_le_mul_of_nonneg_right (Nat.cast_le.mpr hm) (le_of_lt hpos1)
        _ = (2:ℚ) ^ (e1 + 1) := by
            rw [← zpow_div_binade53 e1]
            field_simp
    have step2 : (2:ℚ) ^ (e1 + 1) ≤ 2 ^ e2 :=
      zpow_le_zpow_right₀ one_le_two (by omega)
    have step3 : (2:ℚ) ^ e2
        ≤ (rheN ((a2:ℚ) / b2 / 2 ^ (e2 - 52)) : ℚ) * 2 ^ (e2 - 52) := by
      have hm : 2 ^ 52 ≤ rheN ((a2:ℚ) / b2 / 2 ^ (e2 - 52)) := by
        have := rheN_mono (show (2:ℚ) ^ e2 / 2 ^ (e2 - 52)
            ≤ (a2:ℚ) / b2 / 2 ^ (e2 - 52) from by
          rw [div_le_div_iff_of_pos_right hpos2]
          exact l2)
        rw [zpow_div_binade52, rheN_natCast] at this
        exact this
      calc (2:ℚ) ^ e2 = ((2 ^ 52 : ℕ) : ℚ) * 2 ^ (e2 - 52) := by
            rw [← zpow_div_binade52 e2]
            field_simp
        _ ≤ (rheN ((a2:ℚ) / b2 / 2 ^ (e2 - 52)) : ℚ) * 2 ^ (e2 - 52) :=
            mul_le_mul_of_nonneg_right (Nat.cast_le.mpr hm) (le_of_lt hpos2)
    linarith

lemma rnd_natCast_exact {n : ℕ} (h1 : 1 ≤ n) (h2 : n < 2 ^ 53) :
    fval (rnd n 1) = n := by
  obtain ⟨l, u⟩ := ratExp_spec h1 (le_refl 1)
  set e := ratExp n 1 with he
  have hn1 : ((n:ℚ) / ((1:ℕ):ℚ)) = (n:ℚ) := by norm_num
  rw [hn1] at l u
  have he0 : 0 ≤ e := by
    by_contra hc
    push_neg at hc
    have hle : (2:ℚ) ^ (e + 1) ≤ 2 ^ (0:ℤ) :=
      zpow_le_zpow_right₀ one_le_two (by omega)
    have hlt : (n:ℚ) < 1 := by
      have := lt_of_lt_of_le u hle
      simpa using this
    have : n < 1 := by exact_mod_cast hlt
    omega
  have he52 : e ≤ 52 := by
    by_contra hc
    push_neg at hc
    have h53 : ((2 ^ 53 : ℕ) : ℚ) ≤ (2:ℚ) ^ e := by
      calc ((2 ^ 53 : ℕ) : ℚ) = (2:ℚ) ^ ((53:ℕ):ℤ) := by
            rw [zpow_natCast]; push_cast; ring
        _ ≤ 2 ^ e := zpow_le_zpow_right₀ one_le_two (by omega)
    have : ((2 ^ 53 : ℕ) : ℚ) ≤ (n:ℚ) := le_trans h53 l
    have : 2 ^ 53 ≤ n := by exact_mod_cast this
    omega
  have hne : ¬(n = 0 ∨ 1 = 0) := by omega
  unfold rnd
  rw [if_neg hne, ← he]
  by_cases hγ : 0 ≤ e - 52
  · have he52' : e = 52 := by omega
    rw [if_pos hγ, he52']
    unfold fval rheMantissa
    norm_num [Nat.mod_one, Nat.div_one]
  · rw [if_neg hγ]
    unfold fval rheMantissa
    have hA1 : n * 2 ^ (-(e - 52)).toNat / 1 = n * 2 ^ (-(e - 52)).toNat :=
      Nat.div_one _
    have hA2 : n * 2 ^ (-(e - 52)).toNat % 1 = 0 := Nat.mod_one _
    rw [hA1, hA2]
    norm_num
    rw [← zpow_toNat (by omega : (0:ℤ) ≤ 52 - e)]
    rw [mul_assoc, ← zpow_add₀ (two_ne_zero (α := ℚ))]
    have : 52 - e + (e - 52) = 0 := by omega
    rw [this]
    norm_num

lemma rnd_natCast_exact0 {n : ℕ} (h2 : n < 2 ^ 53) : fval (rnd n 1) = n := by
  rcases Nat.eq_zero_or_pos n with rfl | h1
  · rw [rnd_zero]
    simp [fval]
  · exact rnd_natCast_exact h1 h2

lemma fval_rnd_one : fval (rnd 1 1) = 1 := by
  have := @rnd_natCast_exact 1 (by norm_num) (by norm_num)
  simpa using this

lemma fval_rnd_100 : fval (rnd 100 1) = 100 := by
  have := @rnd_natCast_exact 100 (by norm_num) (by norm_num)
  simpa using this

lemma fshift_eq_rnd_frac (a : ℕ) (sh : ℤ) {b : ℕ} (hb : 1 ≤ b) :
    ∃ A B : ℕ, 1 ≤ B ∧ fshift a sh b = rnd A B ∧
      ((A:ℚ) / B = (a:ℚ) * 2 ^ sh / b) := by
  unfold fshift
  by_cases hsh : 0 ≤ sh
  · refine ⟨a * 2 ^ sh.toNat, b, hb, by rw [if_pos hsh], ?_⟩
    push_cast
    rw [← zpow_toNat hsh]
  · refine ⟨a, b * 2 ^ (-sh).toNat, Nat.one_le_iff_ne_zero.mpr (by positivity),
      by rw [if_neg hsh], ?_⟩
    have h2s : (2:ℚ) ^ sh ≠ 0 := by positivity
    have hbq : (b:ℚ) ≠ 0 := Nat.cast_ne_zero.mpr (by omega)
    push_cast
    rw [← zpow_toNat (by omega : (0:ℤ) ≤ -sh), zpow_neg]
    field_simp

lemma fshift_mono {a1 a2 b1 b2 : ℕ} {sh1 sh2 : ℤ} (hb1 : 1 ≤ b1) (hb2 : 1 ≤ b2)
    (h : (a1:ℚ) * 2 ^ sh1 / b1 ≤ (a2:ℚ) * 2 ^ sh2 / b2) :
    fval (fshift a1 sh1 b1) ≤ fval (fshift a2 sh2 b2) := by
  obtain ⟨A1, B1, hB1, hf1, hv1⟩ := fshift_eq_rnd_frac a1 sh1 hb1
  obtain ⟨A2, B2, hB2, hf2, hv2⟩ := fshift_eq_rnd_frac a2 sh2 hb2
  rw [hf1, hf2]
  apply rnd_mono hB1 hB2
  rw [hv1, hv2]
  exact h

lemma fshift_le_rnd {a b c d : ℕ} {sh : ℤ} (hb : 1 ≤ b) (hd : 1 ≤ d)
    (h : (a:ℚ) * 2 ^ sh / b ≤ (c:ℚ) / d) :
    fval (fshift a sh b) ≤ fval (rnd c d) := by
  obtain ⟨A, B, hB, hf, hv⟩ := fshift_eq_rnd_frac a sh hb
  rw [hf]
  apply rnd_mono hB hd
  rw [hv]
  exact h

lemma rnd_le_fshift {a b c d : ℕ} {sh : ℤ} (hb : 1 ≤ b) (hd : 1 ≤ d)
    (h : (c:ℚ) / d ≤ (a:ℚ) * 2 ^ sh / b) :
    fval (rnd c d) ≤ fval (fshift a sh b) := by
  obtain ⟨A, B, hB, hf, hv⟩ := fshift_eq_rnd_frac a sh hb
  rw [hf]
  apply rnd_mono hd hB
  rw [hv]
  exact h

lemma fadd2_frac (x y : ℕ × ℤ) :
    ((x.1 * 2 ^ (x.2 - min x.2 y.2).toNat + y.1 * 2 ^ (y.2 - min x.2 y.2).toNat : ℕ) : ℚ)
        * 2 ^ (min x.2 y.2) / ((1:ℕ):ℚ) = fval x + fval y := by
  set e := min x.2 y.2 with he
  have hx : (0:ℤ) ≤ x.2 - e := by omega
  have hy : (0:ℤ) ≤ y.2 - e := by omega
  push_cast
  rw [← zpow_toNat hx, ← zpow_toNat hy]
  unfold fval
  rw [div_one, add_mul, mul_assoc, mul_assoc,
    ← zpow_add₀ (two_ne_zero (α := ℚ)), ← zpow_add₀ (two_ne_zero (α := ℚ))]
  have h1 : x.2 - e + e = x.2 := by omega
  have h2 : y.2 - e + e = y.2 := by omega
  rw [h1, h2]

lemma fadd2_mono {x1 y1 x2 y2 : ℕ × ℤ}
    (h : fval x1 + fval y1 ≤ fval x2 + fval y2) :
    fval (fadd2 x1 y1) ≤ fval (fadd2 x2 y2) := by
  unfold fadd2
  apply fshift_mono (le_refl 1) (le_refl 1)
  have e1 := fadd2_frac x1 y1
  have e2 := fadd2_frac x2 y2
  push_cast at e1 e2 ⊢
  rw [e1, e2]
  exact h

lemma fadd2_le_rnd {x y : ℕ × ℤ} {c d : ℕ} (hd : 1 ≤ d)
    (h : fval x + fval y ≤ (c:ℚ) / d) :
    fval (fadd2 x y) ≤ fval (rnd c d) := by
  unfold fadd2
  apply fshift_le_rnd (le_refl 1) hd
  have e1 := fadd2_frac x y
  push_cast at e1 ⊢
  rw [e1]
  exact h

lemma fdiv2_frac (x y : ℕ × ℤ) (hy : 1 ≤ y.1) :
    (x.1:ℚ) * 2 ^ (x.2 - y.2) / (y.1:ℚ) = fval x / fval y := by
  have hyq : (y.1:ℚ) ≠ 0 := Nat.cast_ne_zero.mpr (by omega)
  have h2y : (2:ℚ) ^ y.2 ≠ 0 := by positivity
  unfold fval
  rw [zpow_sub₀ (two_ne_zero (α := ℚ))]
  field_simp
  left
  ring

lemma fdiv2_mono {x1 x2 y1 y2 : ℕ × ℤ} (hy1 : 1 ≤ y1.1) (hy2 : 1 ≤ y2.1)
    (h : fval x1 / fval y1 ≤ fval x2 / fval y2) :
    fval (fdiv2 x1 y1) ≤ fval (fdiv2 x2 y2) := by
  unfold fdiv2
  apply fshift_mono hy1 hy2
  rw [fdiv2_frac x1 y1 hy1, fdiv2_frac x2 y2 hy2]
  exact h

lemma fdiv2_le_rnd {x y : ℕ × ℤ} {c d : ℕ} (hy : 1 ≤ y.1) (hd : 1 ≤ d)
    (h : fval x / fval y ≤ (c:ℚ) / d) :
    fval (fdiv2 x y) ≤ fval (rnd c d) := by
  unfold fdiv2
  apply fshift_le_rnd hy hd
  rw [fdiv2_frac x y hy]
  exact h

lemma fmulN_frac (x : ℕ × ℤ) (k : ℕ) :
    ((x.1 * k : ℕ) : ℚ) * 2 ^ x.2 / ((1:ℕ):ℚ) = fval x * k := by
  unfold fval
  push_cast
  ring

lemma fmulN_mono {x1 x2 : ℕ × ℤ} (k : ℕ)
    (h : fval x1 ≤ fval x2) :
    fval (fmulN x1 k) ≤ fval (fmulN x2 k) := by
  unfold fmulN
  apply fshift_mono (le_refl 1) (le_refl 1)
  have e1 := fmulN_frac x1 k
  have e2 := fmulN_frac x2 k
  push_cast at e1 e2 ⊢
  rw [e1, e2]
  exact mul_le_mul_of_nonneg_right h (by positivity)

lemma fmulN_le_rnd {x : ℕ × ℤ} {k c d : ℕ} (hd : 1 ≤ d)
    (h : fval x * k ≤ (c:ℚ) / d) :
    fval (fmulN x k) ≤ fval (rnd c d) := by
  unfold fmulN
  apply fshift_le_rnd (le_refl 1) hd
  have e1 := fmulN_frac x k
  push_cast at e1 ⊢
  rw [e1]
  exact h

lemma ftrunc_eq_floor (x : ℕ × ℤ) : ftrunc x = ⌊fval x⌋₊ := by
  unfold ftrunc fval
  by_cases hx : 0 ≤ x.2
  · rw [if_pos hx]
    have h1 : (x.1:ℚ) * 2 ^ x.2 = ((x.1 * 2 ^ x.2.toNat : ℕ) : ℚ) := by
      push_cast
      rw [← zpow_toNat hx]
    rw [h1, Nat.floor_natCast]
  · rw [if_neg hx]
    have h1 : (x.1:ℚ) * 2 ^ x.2 = (x.1:ℚ) / ((2 ^ (-x.2).toNat : ℕ) : ℚ) := by
      push_cast
      rw [← zpow_toNat (by omega : (0:ℤ) ≤ -x.2), zpow_neg]
      rw [div_eq_mul_inv, inv_inv]
    rw [h1, Nat.floor_div_nat, Nat.floor_natCast]

lemma ftrunc_mono {x y : ℕ × ℤ} (h : fval x ≤ fval y) : ftrunc x ≤ ftrunc y := by
  rw [ftrunc_eq_floor, ftrunc_eq_floor]
  exact Nat.floor_mono h

lemma fshift_b0 (a : ℕ) (sh : ℤ) : fshift a sh 0 = (0, 0) := by
  unfold fshift
  split <;> simp [rnd]

lemma pctFloat_total_zero (idx d t : ℕ) : pctFloat idx d t 0 = 0 := by
  unfold pctFloat
  by_cases ht : 0 < t
  · rw [if_pos ht]
    have h1 : fdiv2 (fadd2 (rnd idx 1) (rnd d t)) (rnd 0 1) = (0, 0) := by
      rw [rnd_zero]
      unfold fdiv2
      exact fshift_b0 _ _
    rw [h1]
    rfl
  · rw [if_neg ht]

lemma fval_rnd_pos {n : ℕ} (h : 1 ≤ n) : 1 ≤ fval (rnd n 1) := by
  have := @rnd_mono 1 1 n 1 (le_refl 1) (le_refl 1) (by
      have : (1:ℚ) ≤ n := by exact_mod_cast h
      push_cast
      simpa using this)
  rw [fval_rnd_one] at this
  exact this

lemma fst_pos_of_fval_pos {x : ℕ × ℤ} (h : 0 < fval x) : 1 ≤ x.1 := by
  by_contra hc
  push_neg at hc
  have h0 : x.1 = 0 := by omega
  unfold fval at h
  rw [h0] at h
  norm_num at h

lemma rnd_fst_pos {n : ℕ} (h : 1 ≤ n) : 1 ≤ (rnd n 1).1 :=
  fst_pos_of_fval_pos (lt_of_lt_of_le zero_lt_one (fval_rnd_pos h))

lemma fval_rnd_frac_le_one {d t : ℕ} (ht : 1 ≤ t) (hd : d ≤ t) :
    fval (rnd d t) ≤ 1 := by
  have := @rnd_mono d t 1 1 ht (le_refl 1) (by
    have ht0 : (0:ℚ) < t := by exact_mod_cast ht
    push_cast
    rw [div_one, div_le_one ht0]
    exact_mod_cast hd)
  rw [fval_rnd_one] at this
  exact this

lemma pctFloat_mono_done {idx t N d1 d2 : ℕ} (ht : 0 < t) (hd : d1 ≤ d2) :
    pctFloat idx d1 t N ≤ pctFloat idx d2 t N := by
  rcases Nat.eq_zero_or_pos N with rfl | hN
  · rw [pctFloat_total_zero, pctFloat_total_zero]
  unfold pctFloat
  rw [if_pos ht, if_pos ht]
  apply ftrunc_mono
  apply fmulN_mono
  have hNfst : 1 ≤ (rnd N 1).1 := rnd_fst_pos hN
  apply fdiv2_mono hNfst hNfst
  have hden : 0 < fval (rnd N 1) := lt_of_lt_of_le zero_lt_one (fval_rnd_pos hN)
  rw [div_le_div_iff_of_pos_right hden]
  apply fadd2_mono
  have hfrac : (d1:ℚ) / t ≤ (d2:ℚ) / t := by
    have ht0 : (0:ℚ) < t := by exact_mod_cast ht
    rw [div_le_div_iff_of_pos_right ht0]
    exact_mod_cast hd
  have := @rnd_mono d1 t d2 t ht ht hfrac
  linarith

lemma pctFloat_cross {idx j d t d2 t2 N : ℕ} (ht : 0 < t) (ht2 : 0 < t2)
    (hd : d ≤ t) (hij : idx < j) (hj : j < 2 ^ 53) :
    pctFloat idx d t N ≤ pctFloat j d2 t2 N := by
  rcases Nat.eq_zero_or_pos N with rfl | hN
  · rw [pctFloat_total_zero, pctFloat_total_zero]
  unfold pctFloat
  rw [if_pos ht, if_pos ht2]
  apply ftrunc_mono
  apply fmulN_mono
  have hNfst : 1 ≤ (rnd N 1).1 := rnd_fst_pos hN
  apply fdiv2_mono hNfst hNfst
  have hden : 0 < fval (rnd N 1) := lt_of_lt_of_le zero_lt_one (fval_rnd_pos hN)
  rw [div_le_div_iff_of_pos_right hden]
  apply fadd2_mono
  have hidx : fval (rnd idx 1) = idx := rnd_natCast_exact0 (by omega)
  have hjv : fval (rnd j 1) = j := rnd_natCast_exact0 hj
  have h1 : fval (rnd d t) ≤ 1 := fval_rnd_frac_le_one ht hd
  have h2 : (0:ℚ) ≤ fval (rnd d2 t2) := fval_nonneg _
  have hstep : (idx:ℚ) + 1 ≤ (j:ℚ) := by exact_mod_cast hij
  rw [hidx, hjv]
  linarith

lemma pctFloat_le_100 {idx d t N : ℕ} (ht : 0 < t) (hd : d ≤ t)
    (hidx : idx + 1 ≤ N) (hN : N < 2 ^ 53) :
    pctFloat idx d t N ≤ 100 := by
  have hN1 : 1 ≤ N := by omega
  unfold pctFloat
  rw [if_pos ht]
  have hNval : fval (rnd N 1) = N := rnd_natCast_exact0 hN
  have hidxval : fval (rnd idx 1) = idx := rnd_natCast_exact0 (by omega)
  have hS : fval (fadd2 (rnd idx 1) (rnd d t)) ≤ fval (rnd N 1) := by
    apply fadd2_le_rnd (le_refl 1)
    have h1 : fval (rnd d t) ≤ 1 := fval_rnd_frac_le_one ht hd
    have hstep : (idx:ℚ) + 1 ≤ (N:ℚ) := by exact_mod_cast hidx
    push_cast
    rw [div_one, hidxval]
    linarith
  have hQ : fval (fdiv2 (fadd2 (rnd idx 1) (rnd d t)) (rnd N 1)) ≤ fval (rnd 1 1) := by
    apply fdiv2_le_rnd (rnd_fst_pos hN1) (le_refl 1)
    have hden : (0:ℚ) < fval (rnd N 1) := lt_of_lt_of_le zero_lt_one (fval_rnd_pos hN1)
    push_cast
    rw [div_one, div_le_one hden]
    exact hS
  have hP : fval (fmulN (fdiv2 (fadd2 (rnd idx 1) (rnd d t)) (rnd N 1)) 100)
      ≤ fval (rnd 100 1) := by
    apply fmulN_le_rnd (le_refl 1)
    rw [fval_rnd_one] at hQ
    have h100 : ((100:ℕ):ℚ) / ((1:ℕ):ℚ) = 100 := by norm_num
    rw [h100]
    have := fval_nonneg (fdiv2 (fadd2 (rnd idx 1) (rnd d t)) (rnd N 1))
    push_cast
    linarith
  have := ftrunc_mono hP
  have hfin : ftrunc (rnd 100 1) = 100 := by
    rw [ftrunc_eq_floor, fval_rnd_100]
    norm_num
  omega

lemma pctFloat_python_checks :
    pctFloat 0 29 100 1 = 28 ∧ pctFloat 0 58 100 1 = 57 ∧
    pctFloat 0 1 2 1 = 50 ∧ pctFloat 0 1 3 1 = 33 ∧
    pctFloat 0 2 2 1 = 100 ∧ pctFloat 1 1 1 3 = 66 ∧
    pctFloat 0 7 13 2 = 26 ∧ pctFloat 1 4 7 3 = 52 := by decide

/-! Trace invariants. -/

lemma imgLoop_tags {cfg : Cfg} {total f t : ℕ} :
    ∀ {imgs : List String} {i done : ℕ} {s : St} {ev : Ev},
      ev ∈ (imgLoop cfg total f t imgs i done s).evs →
      evFolder ev = f ∧ ∃ j, evImg ev = some j ∧ i ≤ j := by
  intro imgs
  induction imgs with
  | nil => intro i done s ev h; simp [imgLoop_nil] at h
  | cons img rest ih =>
    intro i done s ev h
    cases hfl : flagAt cfg.stop s.reads with
    | false =>
        rw [imgLoop_break total f t img rest i done hfl] at h
        simp at h
    | true =>
        by_cases hc : ((s.fs (captionPathOf img)).isSome && !cfg.overwrite) = true
        · rw [imgLoop_skip total f t rest i done hfl hc] at h
          rcases List.mem_cons.mp h with rfl | h2
          · exact ⟨rfl, i, rfl, Nat.le_refl i⟩
          · obtain ⟨h3, j, h4, h5⟩ := ih h2
            exact ⟨h3, j, h4, Nat.le_of_succ_le h5⟩
        · have hc' : ((s.fs (captionPathOf img)).isSome && !cfg.overwrite) = false :=
            Bool.eq_false_iff.mpr hc
          rcases ha : cfg.attemptOf f i with e | e | e | c
          · rw [imgLoop_readFail total f t rest i done hfl hc' ha] at h
            rcases List.mem_cons.mp h with rfl | h
            · exact ⟨rfl, i, rfl, Nat.le_refl i⟩
            rcases List.mem_cons.mp h with rfl | h
            · exact ⟨rfl, i, rfl, Nat.le_refl i⟩
            rcases List.mem_cons.mp h with rfl | h
            · exact ⟨rfl, i, rfl, Nat.le_refl i⟩
            obtain ⟨h3, j, h4, h5⟩ := ih h
            exact ⟨h3, j, h4, Nat.le_of_succ_le h5⟩
          · rw [imgLoop_callFail total f t rest i done hfl hc' ha] at h
            rcases List.mem_cons.mp h with rfl | h
            · exact ⟨rfl, i, rfl, Nat.le_refl i⟩
            rcases List.mem_cons.mp h with rfl | h
            · exact ⟨rfl, i, rfl, Nat.le_refl i⟩
            rcases List.mem_cons.mp h with rfl | h
            · exact ⟨rfl, i, rfl, Nat.le_refl i⟩
            rcases List.mem_cons.mp h with rfl | h
            · exact ⟨rfl, i, rfl, Nat.le_refl i⟩
            obtain ⟨h3, j, h4, h5⟩ := ih h
            exact ⟨h3, j, h4, Nat.le_of_succ_le h5⟩
          · rw [imgLoop_extractFail total f t rest i done hfl hc' ha] at h
            rcases List.mem_cons.mp h with rfl | h
            · exact ⟨rfl, i, rfl, Nat.le_refl i⟩
            rcases List.mem_cons.mp h with rfl | h
            · exact ⟨rfl, i, rfl, Nat.le_refl i⟩
            rcases List.mem_cons.mp h with rfl | h
            · exact ⟨rfl, i, rfl, Nat.le_refl i⟩
            rcases List.mem_cons.mp h with rfl | h
            · exact ⟨rfl, i, rfl, Nat.le_refl i⟩
            rcases List.mem_cons.mp h with rfl | h
            · exact ⟨rfl, i, rfl, Nat.le_refl i⟩
            obtain ⟨h3, j, h4, h5⟩ := ih h
            exact ⟨h3, j, h4, Nat.le_of_succ_le h5⟩
          · rw [imgLoop_success total f t rest i done hfl hc' ha] at h
            rcases List.mem_cons.mp h with rfl | h
            · exact ⟨rfl, i, rfl, Nat.le_refl i⟩
            rcases List.mem_cons.mp h with rfl | h
            · exact ⟨rfl, i, rfl, Nat.le_refl i⟩
            rcases List.mem_cons.mp h with rfl | h
            · exact ⟨rfl, i, rfl, Nat.le_refl i⟩
            rcases List.mem_cons.mp h with rfl | h
            · exact ⟨rfl, i, rfl, Nat.le_refl i⟩
            rcases List.mem_cons.mp h with rfl | h
            · exact ⟨rfl, i, rfl, Nat.le_refl i⟩
            obtain ⟨h3, j, h4, h5⟩ := ih h
            exact ⟨h3, j, h4, Nat.le_of_succ_le h5⟩

lemma folderLoop_tags {cfg : Cfg} {total : ℕ} :
    ∀ {folders : List Folder} {idx : ℕ} {s : St} {ev : Ev},
      ev ∈ (folderLoop cfg total folders idx s).evs → idx ≤ evFolder ev := by
  intro folders
  induction folders with
  | nil => intro idx s ev h; simp [folderLoop_nil] at h
  | cons f rest ih =>
    intro idx s ev h
    cases hfl : flagAt cfg.stop s.reads with
    | false =>
        rw [folderLoop_break total f rest idx hfl] at h
        simp at h
    | true =>
        rw [folderLoop_cons total f rest idx hfl] at h
        simp only [List.mem_cons, List.mem_append] at h
        rcases h with rfl | h | rfl | h
        · exact Nat.le_refl idx
        · exact le_of_eq (imgLoop_tags h).1.symm
        · exact Nat.le_refl idx
        · exact Nat.le_of_succ_le (ih h)

lemma skip_idx_ge {cfg : Cfg} {total f t : ℕ} {imgs : List String}
    {i done : ℕ} {s : St} {g j : ℕ} {img2 : String}
    (h : Ev.skip g j img2 ∈ (imgLoop cfg total f t imgs i done s).evs) : i ≤ j := by
  obtain ⟨-, j2, hj2, hle⟩ := imgLoop_tags h
  simp [evImg] at hj2
  omega

lemma infer_idx_ge {cfg : Cfg} {total f t : ℕ} {imgs : List String}
    {i done : ℕ} {s : St} {g j : ℕ} {img' pr : String}
    (h : Ev.inferCall g j img' pr ∈ (imgLoop cfg total f t imgs i done s).evs) : i ≤ j := by
  obtain ⟨-, j2, hj2, hle⟩ := imgLoop_tags h
  simp [evImg] at hj2
  omega

lemma imgLoop_no_skip_infer {cfg : Cfg} {total f t : ℕ} :
    ∀ {imgs : List String} {i done : ℕ} {s : St} {g j : ℕ} {img2 img' pr : String},
      Ev.skip g j img2 ∈ (imgLoop cfg total f t imgs i done s).evs →
      Ev.inferCall g j img' pr ∈ (imgLoop cfg total f t imgs i done s).evs → False := by
  intro imgs
  induction imgs with
  | nil => intro _ _ _ _ _ _ _ _ hs _; simp [imgLoop_nil] at hs
  | cons img rest ih =>
    intro i done s g j img2 img' pr hs hinf
    cases hfl : flagAt cfg.stop s.reads with
    | false =>
        rw [imgLoop_break total f t img rest i done hfl] at hs
        simp at hs
    | true =>
        by_cases hc : ((s.fs (captionPathOf img)).isSome && !cfg.overwrite) = true
        · rw [imgLoop_skip total f t rest i done hfl hc] at hs hinf
          rcases List.mem_cons.mp hs with heq | hs2
          · simp only [Ev.skip.injEq] at heq
            obtain ⟨rfl, rfl, rfl⟩ := heq
            rcases List.mem_cons.mp hinf with h | h
            · simp at h
            · have := infer_idx_ge h; omega
          · rcases List.mem_cons.mp hinf with h | h
            · simp at h
            · exact ih hs2 h
        · have hc' : ((s.fs (captionPathOf img)).isSome && !cfg.overwrite) = false :=
            Bool.eq_false_iff.mpr hc
          rcases ha : cfg.attemptOf f i with e | e | e | c
          · rw [imgLoop_readFail total f t rest i done hfl hc' ha] at hs hinf
            simp only [List.mem_cons] at hs hinf
            rcases hs with h | h | h | hs2
            · simp at h
            · simp at h
            · simp at h
            rcases hinf with h | h | h | h2
            · simp at h
            · simp at h
            · simp at h
            exact ih hs2 h2
          · rw [imgLoop_callFail total f t rest i done hfl hc' ha] at hs hinf
            simp only [List.mem_cons] at hs hinf
            rcases hs with h | h | h | h | hs2
            · simp at h
            · simp at h
            · simp at h
            · simp at h
            rcases hinf with h | h | h | h | h2
            · simp only [Ev.inferCall.injEq] at h
              obtain ⟨rfl, rfl, -, -⟩ := h
              have := skip_idx_ge hs2; omega
            · simp at h
            · simp at h
            · simp at h
            exact ih hs2 h2
          · rw [imgLoop_extractFail total f t rest i done hfl hc' ha] at hs hinf
            simp only [List.mem_cons] at hs hinf
            rcases hs with h | h | h | h | h | hs2
            · simp at h
            · simp at h
            · simp at h
            · simp at h
            · simp at h
            rcases hinf with h | h | h | h | h | h2
            · simp only [Ev.inferCall.injEq] at h
              obtain ⟨rfl, rfl, -, -⟩ := h
              have := skip_idx_ge hs2; omega
            · simp at h
            · simp at h
            · simp at h
            · simp at h
            exact ih hs2 h2
          · rw [imgLoop_success total f t rest i done hfl hc' ha] at hs hinf
            simp only [List.mem_cons] at hs hinf
            rcases hs with h | h | h | h | h | hs2
            · simp at h
            · simp at h
            · simp at h
            · simp at h
            · simp at h
            rcases hinf with h | h | h | h | h | h2
            · simp only [Ev.inferCall.injEq] at h
              obtain ⟨rfl, rfl, -, -⟩ := h
              have := skip_idx_ge hs2; omega
            · simp at h
            · simp at h
            · simp at h
            · simp at h
            exact ih hs2 h2

lemma folderLoop_no_skip_infer {cfg : Cfg} {total : ℕ} :
    ∀ {folders : List Folder} {idx : ℕ} {s : St} {g j : ℕ} {img2 img' pr : String},
      Ev.skip g j img2 ∈ (folderLoop cfg total folders idx s).evs →
      Ev.inferCall g j img' pr ∈ (folderLoop cfg total folders idx s).evs → False := by
  intro folders
  induction folders with
  | nil => intro _ _ _ _ _ _ _ hs _; simp [folderLoop_nil] at hs
  | cons f rest ih =>
    intro idx s g j img2 img' pr hs hinf
    cases hfl : flagAt cfg.stop s.reads with
    | false =>
        rw [folderLoop_break total f rest idx hfl] at hs
        simp at hs
    | true =>
        rw [folderLoop_cons total f rest idx hfl] at hs hinf
        simp only [List.mem_cons, List.mem_append] at hs hinf
        rcases hs with h | hs2 | h | hs2
        · simp at h
        · have hg : g = idx := by
            have := (imgLoop_tags hs2).1
            simpa [evFolder] using this
          subst hg
          rcases hinf with h | h2 | h | h2
          · simp at h
          · exact imgLoop_no_skip_infer hs2 h2
          · simp at h
          · have := folderLoop_tags h2
            simp [evFolder] at this
        · simp at h
        · have hg : idx + 1 ≤ g := by
            have := folderLoop_tags hs2
            simpa [evFolder] using this
          rcases hinf with h | h2 | h | h2
          · simp at h
          · have := (imgLoop_tags h2).1
            simp [evFolder] at this
            omega
          · simp at h
          · exact ih hs2 h2

lemma imgLoop_preserve {cfg : Cfg} {total f t : ℕ} (hov : cfg.overwrite = false) :
    ∀ {imgs : List String} {i done : ℕ} {s : St} {p c : String},
      s.fs p = some c → (imgLoop cfg total f t imgs i done s).st.fs p = some c := by
  intro imgs
  induction imgs with
  | nil => intro i done s p c h; rw [imgLoop_nil]; exact h
  | cons img rest ih =>
    intro i done s p c h
    cases hfl : flagAt cfg.stop s.reads with
    | false => rw [imgLoop_break total f t img rest i done hfl]; exact h
    | true =>
      by_cases hc : ((s.fs (captionPathOf img)).isSome && !cfg.overwrite) = true
      · rw [imgLoop_skip total f t rest i done hfl hc]
        exact ih h
      · have hc' : ((s.fs (captionPathOf img)).isSome && !cfg.overwrite) = false :=
          Bool.eq_false_iff.mpr hc
        have hnone : s.fs (captionPathOf img) = none := by
          cases hopt : s.fs (captionPathOf img) with
          | none => rfl
          | some v => rw [hopt, hov] at hc'; simp at hc'
        have hne : p ≠ captionPathOf img := by
          intro he
          rw [he, hnone] at h
          exact Option.noConfusion h
        have hW : ∀ v : String, (fsWrite s.fs (captionPathOf img) v) p = some c := by
          intro v
          simp only [fsWrite, if_neg hne]
          exact h
        rcases ha : cfg.attemptOf f i with e | e | e | c2
        · rw [imgLoop_readFail total f t rest i done hfl hc' ha]; exact ih h
        · rw [imgLoop_callFail total f t rest i done hfl hc' ha]; exact ih h
        · rw [imgLoop_extractFail total f t rest i done hfl hc' ha]; exact ih (hW "")
        · rw [imgLoop_success total f t rest i done hfl hc' ha]; exact ih (hW c2)

lemma folderLoop_preserve {cfg : Cfg} {total : ℕ} (hov : cfg.overwrite = false) :
    ∀ {folders : List Folder} {idx : ℕ} {s : St} {p c : String},
      s.fs p = some c → (folderLoop cfg total folders idx s).st.fs p = some c := by
  intro folders
  induction folders with
  | nil => intro idx s p c h; rw [folderLoop_nil]; exact h
  | cons f rest ih =>
    intro idx s p c h
    cases hfl : flagAt cfg.stop s.reads with
    | false => rw [folderLoop_break total f rest idx hfl]; exact h
    | true =>
      rw [folderLoop_cons total f rest idx hfl]
      exact ih (imgLoop_preserve hov h)

lemma folderLoop_statuses_length {cfg : Cfg} {total : ℕ} :
    ∀ {folders : List Folder} {idx : ℕ} {s : St},
      (folderLoop cfg total folders idx s).statuses.length = folders.length := by
  intro folders
  induction folders with
  | nil => intro idx s; rfl
  | cons f rest ih =>
    intro idx s
    cases hfl : flagAt cfg.stop s.reads with
    | false => rw [folderLoop_break total f rest idx hfl]; simp
    | true => rw [folderLoop_cons total f rest idx hfl]; simp [ih]

lemma folderLoop_dead {cfg : Cfg} {total : ℕ} {folders : List Folder} {idx : ℕ}
    {s : St} (h : flagAt cfg.stop s.reads = false) :
    (folderLoop cfg total folders idx s).statuses =
        folders.map (fun _ => FStatus.pending) ∧
      (folderLoop cfg total folders idx s).evs = [] := by
  cases folders with
  | nil => exact ⟨rfl, rfl⟩
  | cons f rest => rw [folderLoop_break total f rest idx h]; simp

lemma get?_map_pending {rest : List Folder} {j : ℕ} (hj : j < rest.length) :
    (rest.map (fun _ => FStatus.pending)).get? j = some FStatus.pending := by
  rw [List.get?_map]
  cases hg : rest.get? j with
  | none =>
      rw [List.get?_eq_none] at hg
      omega
  | some v => simp

lemma folderLoop_cons2 {cfg : Cfg} {s : St} (total : ℕ) (f : Folder)
    (rest : List Folder) (idx : ℕ) (h : flagAt cfg.stop s.reads = true) :
    folderLoop cfg total (f :: rest) idx s =
      ⟨(frOf cfg total idx f rest s).st,
       Ev.scanStat idx ::
         ((ilOf cfg total idx f s).evs ++
           Ev.finalStat idx (flagAt cfg.stop (ilOf cfg total idx f s).st.reads) ::
             (frOf cfg total idx f rest s).evs),
       (if flagAt cfg.stop (ilOf cfg total idx f s).st.reads then FStatus.done
        else FStatus.stopped) :: (frOf cfg total idx f rest s).statuses⟩ := by
  simp [folderLoop, readFlag, h, ilOf, frOf]

lemma folderLoop_stopped_pattern {cfg : Cfg} {total : ℕ} :
    ∀ {folders : List Folder} {idx : ℕ} {s : St} {i : ℕ},
      (folderLoop cfg total folders idx s).statuses.get? i = some FStatus.stopped →
      (∀ j, j < i →
        (folderLoop cfg total folders idx s).statuses.get? j = some FStatus.done) ∧
      (∀ j, i < j → j < folders.length →
        (folderLoop cfg total folders idx s).statuses.get? j = some FStatus.pending) := by
  intro folders
  induction folders with
  | nil => intro idx s i h; simp [folderLoop_nil] at h
  | cons f rest ih =>
    intro idx s i h
    cases hfl : flagAt cfg.stop s.reads with
    | false =>
      rw [folderLoop_break total f rest idx hfl] at h
      cases i with
      | zero => simp at h
      | succ i' =>
        simp only [List.get?] at h
        rw [List.get?_map] at h
        cases hg : rest.get? i' with
        | none => rw [hg] at h; simp at h
        | some v => rw [hg] at h; simp at h
    | true =>
      rw [folderLoop_cons2 total f rest idx hfl] at h ⊢
      simp only at h ⊢
      cases hr2 : flagAt cfg.stop (ilOf cfg total idx f s).st.reads with
      | true =>
        rw [hr2] at h
        cases i with
        | zero => simp at h
        | succ i' =>
          simp only [List.get?] at h
          obtain ⟨h1, h2⟩ := ih h
          constructor
          · intro j hj
            cases j with
            | zero => simp [hr2]
            | succ j' =>
              simp only [List.get?]
              exact h1 j' (Nat.lt_of_succ_lt_succ hj)
          · intro j hj hlen
            cases j with
            | zero => omega
            | succ j' =>
              simp only [List.get?]
              exact h2 j' (Nat.lt_of_succ_lt_succ hj)
                (Nat.lt_of_succ_lt_succ (by simpa using hlen))
      | false =>
        rw [hr2] at h
        have hdead : flagAt cfg.stop
            ((⟨(ilOf cfg total idx f s).st.reads + 1,
                (ilOf cfg total idx f s).st.fs⟩ : St)).reads = false :=
          flagAt_mono_false (Nat.le_succ _) hr2
        have hpend2 : (frOf cfg total idx f rest s).statuses =
            rest.map (fun _ => FStatus.pending) := by
          have hp := @folderLoop_dead cfg total rest (idx + 1)
            ⟨(ilOf cfg total idx f s).st.reads + 1, (ilOf cfg total idx f s).st.fs⟩ hdead
          exact hp.1
        cases i with
        | zero =>
          refine ⟨fun j hj => absurd hj (Nat.not_lt_zero j), ?_⟩
          intro j hj hlen
          cases j with
          | zero => omega
          | succ j' =>
            simp only [List.get?, hr2]
            rw [hpend2]
            exact get?_map_pending (Nat.lt_of_succ_lt_succ (by simpa using hlen))
        | succ i' =>
          simp only [List.get?] at h
          rw [hpend2] at h
          rw [List.get?_map] at h
          cases hg : rest.get? i' with
          | none => rw [hg] at h; simp at h
          | some v => rw [hg] at h; simp at h

lemma progressVals_append (a b : List Ev) :
    progressVals (a ++ b) = progressVals a ++ progressVals b := by
  simp [progressVals, List.filterMap_append]

lemma mem_progressVals {evs : List Ev} {p : ℕ} :
    p ∈ progressVals evs ↔ ∃ g j, Ev.progress g j p ∈ evs := by
  constructor
  · intro h
    obtain ⟨ev, hev, hm⟩ := List.mem_filterMap.mp h
    cases ev with
    | progress g j q =>
        simp at hm
        exact ⟨g, j, hm ▸ hev⟩
    | scanStat f => simp at hm
    | skip f i img => simp at hm
    | inferCall f i img pr => simp at hm
    | readErr f i img e => simp at hm
    | callErr f i img e => simp at hm
    | extractTrunc f i p2 => simp at hm
    | extractErr f i img e => simp at hm
    | writeCap f i p2 c => simp at hm
    | okLog f i img => simp at hm
    | folderStat f i d t => simp at hm
    | finalStat f b => simp at hm
  · rintro ⟨g, j, h⟩
    exact List.mem_filterMap.mpr ⟨Ev.progress g j p, h, rfl⟩

/-! Reduction of progressVals over each event constructor. -/

lemma pv_scanStat (f : ℕ) (evs : List Ev) :
    progressVals (Ev.scanStat f :: evs) = progressVals evs := rfl

lemma pv_skip (f i : ℕ) (img : String) (evs : List Ev) :
    progressVals (Ev.skip f i img :: evs) = progressVals evs := rfl

lemma pv_inferCall (f i : ℕ) (img pr : String) (evs : List Ev) :
    progressVals (Ev.inferCall f i img pr :: evs) = progressVals evs := rfl

lemma pv_readErr (f i : ℕ) (img e : String) (evs : List Ev) :
    progressVals (Ev.readErr f i img e :: evs) = progressVals evs := rfl

lemma pv_callErr (f i : ℕ) (img e : String) (evs : List Ev) :
    progressVals (Ev.callErr f i img e :: evs) = progressVals evs := rfl

lemma pv_extractTrunc (f i : ℕ) (p : String) (evs : List Ev) :
    progressVals (Ev.extractTrunc f i p :: evs) = progressVals evs := rfl

lemma pv_extractErr (f i : ℕ) (img e : String) (evs : List Ev) :
    progressVals (Ev.extractErr f i img e :: evs) = progressVals evs := rfl

lemma pv_writeCap (f i : ℕ) (p c : String) (evs : List Ev) :
    progressVals (Ev.writeCap f i p c :: evs) = progressVals evs := rfl

lemma pv_okLog (f i : ℕ) (img : String) (evs : List Ev) :
    progressVals (Ev.okLog f i img :: evs) = progressVals evs := rfl

lemma pv_folderStat (f i d t : ℕ) (evs : List Ev) :
    progressVals (Ev.folderStat f i d t :: evs) = progressVals evs := rfl

lemma pv_finalStat (f : ℕ) (b : Bool) (evs : List Ev) :
    progressVals (Ev.finalStat f b :: evs) = progressVals evs := rfl

lemma pv_progress (g j p : ℕ) (evs : List Ev) :
    progressVals (Ev.progress g j p :: evs) = p :: progressVals evs := rfl

lemma chain_cons_low {a : ℕ} {l : List ℕ} (hc : List.Chain' (· ≤ ·) l)
    (hlow : ∀ p ∈ l, a ≤ p) : List.Chain' (· ≤ ·) (a :: l) := by
  rw [List.chain'_cons']
  exact ⟨fun y hy => hlow y (List.mem_of_mem_head? hy), hc⟩

lemma imgLoop_progress_facts {cfg : Cfg} {total fI t : ℕ} :
    ∀ {imgs : List String} {i done : ℕ} {s : St},
      done + imgs.length ≤ t →
      List.Chain' (· ≤ ·)
        (progressVals (imgLoop cfg total fI t imgs i done s).evs) ∧
      ∀ p ∈ progressVals (imgLoop cfg total fI t imgs i done s).evs,
        pctFloat fI done t total ≤ p ∧
        ∃ d, d ≤ t ∧ 0 < t ∧ p = pctFloat fI d t total := by
  intro imgs
  induction imgs with
  | nil =>
    intro i done s hle
    simp [imgLoop_nil, progressVals]
  | cons img rest ih =>
    intro i done s hle
    have ht : 0 < t := by simp at hle; omega
    have hle1 : done + 1 + rest.length ≤ t := by simp at hle; omega
    cases hfl : flagAt cfg.stop s.reads with
    | false =>
      rw [imgLoop_break total fI t img rest i done hfl]
      simp [progressVals]
    | true =>
      by_cases hc : ((s.fs (captionPathOf img)).isSome && !cfg.overwrite) = true
      · rw [imgLoop_skip total fI t rest i done hfl hc]
        rw [pv_skip]
        obtain ⟨hch, hfacts⟩ := ih (show done + 1 + rest.length ≤ t from hle1)
        refine ⟨hch, ?_⟩
        intro p hp
        obtain ⟨hlow, d, hdle, ht2, hform⟩ := hfacts p hp
        exact ⟨le_trans (pctFloat_mono_done ht (Nat.le_succ done)) hlow,
          d, hdle, ht2, hform⟩
      · have hc2 : ((s.fs (captionPathOf img)).isSome && !cfg.overwrite) = false :=
          Bool.eq_false_iff.mpr hc
        rcases ha : cfg.attemptOf fI i with e | e | e | c
        · rw [imgLoop_readFail total fI t rest i done hfl hc2 ha]
          rw [pv_readErr, pv_progress, pv_folderStat]
          obtain ⟨hch, hfacts⟩ := ih (show done + rest.length ≤ t by omega)
          refine ⟨chain_cons_low hch (fun p hp => (hfacts p hp).1), ?_⟩
          intro p hp
          rcases List.mem_cons.mp hp with rfl | hp2
          · exact ⟨le_refl _, done, by omega, ht, rfl⟩
          · exact hfacts p hp2
        · rw [imgLoop_callFail total fI t rest i done hfl hc2 ha]
          rw [pv_inferCall, pv_callErr, pv_progress, pv_folderStat]
          obtain ⟨hch, hfacts⟩ := ih (show done + rest.length ≤ t by omega)
          refine ⟨chain_cons_low hch (fun p hp => (hfacts p hp).1), ?_⟩
          intro p hp
          rcases List.mem_cons.mp hp with rfl | hp2
          · exact ⟨le_refl _, done, by omega, ht, rfl⟩
          · exact hfacts p hp2
        · rw [imgLoop_extractFail total fI t rest i done hfl hc2 ha]
          rw [pv_inferCall, pv_extractTrunc, pv_extractErr, pv_progress,
            pv_folderStat]
          obtain ⟨hch, hfacts⟩ := ih (show done + rest.length ≤ t by omega)
          refine ⟨chain_cons_low hch (fun p hp => (hfacts p hp).1), ?_⟩
          intro p hp
          rcases List.mem_cons.mp hp with rfl | hp2
          · exact ⟨le_refl _, done, by omega, ht, rfl⟩
          · exact hfacts p hp2
        · rw [imgLoop_success total fI t rest i done hfl hc2 ha]
          rw [pv_inferCall, pv_writeCap, pv_okLog, pv_progress, pv_folderStat]
          obtain ⟨hch, hfacts⟩ := ih (show done + 1 + rest.length ≤ t from hle1)
          refine ⟨chain_cons_low hch (fun p hp => (hfacts p hp).1), ?_⟩
          intro p hp
          rcases List.mem_cons.mp hp with rfl | hp2
          · exact ⟨pctFloat_mono_done ht (Nat.le_succ done), done + 1, by omega,
              ht, rfl⟩
          · obtain ⟨hlow, d, hdle, ht2, hform⟩ := hfacts p hp2
            exact ⟨le_trans (pctFloat_mono_done ht (Nat.le_succ done)) hlow,
              d, hdle, ht2, hform⟩

lemma folderLoop_progress_facts {cfg : Cfg} {total : ℕ} :
    ∀ {folders : List Folder} {idx : ℕ} {s : St},
      idx + folders.length ≤ total →
      total < 2 ^ 53 →
      List.Chain' (· ≤ ·)
        (progressVals (folderLoop cfg total folders idx s).evs) ∧
      ∀ p ∈ progressVals (folderLoop cfg total folders idx s).evs,
        ∃ g d t, idx ≤ g ∧ g + 1 ≤ total ∧ 0 < t ∧ d ≤ t ∧
          p = pctFloat g d t total := by
  intro folders
  induction folders with
  | nil =>
    intro idx s hlen h53
    simp [folderLoop_nil, progressVals]
  | cons f rest ih =>
    intro idx s hlen h53
    cases hfl : flagAt cfg.stop s.reads with
    | false =>
      rw [folderLoop_break total f rest idx hfl]
      simp [progressVals]
    | true =>
      rw [folderLoop_cons2 total f rest idx hfl]
      rw [pv_scanStat, progressVals_append, pv_finalStat]
      have hlen1 : idx + 1 + rest.length ≤ total := by simp at hlen; omega
      obtain ⟨cil, ilfacts⟩ :=
        @imgLoop_progress_facts cfg total idx (discoverImages f.listing).length
          (discoverImages f.listing) 0 0 ⟨s.reads + 1, s.fs⟩ (by omega)
      obtain ⟨cfr, frfacts⟩ := ih (show idx + 1 + rest.length ≤ total from hlen1) h53
      have hilfacts : ∀ p ∈ progressVals (ilOf cfg total idx f s).evs,
          pctFloat idx 0 (discoverImages f.listing).length total ≤ p ∧
          ∃ d, d ≤ (discoverImages f.listing).length ∧
            0 < (discoverImages f.listing).length ∧
            p = pctFloat idx d (discoverImages f.listing).length total := ilfacts
      have hcil : List.Chain' (· ≤ ·)
          (progressVals (ilOf cfg total idx f s).evs) := cil
      constructor
      · apply List.Chain'.append hcil cfr
        intro x hx y hy
        obtain ⟨_, d, hdle, ht, hxe⟩ :=
          hilfacts x (List.mem_of_mem_getLast? hx)
        obtain ⟨g, d2, t2, hg, hg1, ht2, hd2, hye⟩ :=
          frfacts y (List.mem_of_mem_head? hy)
        rw [hxe, hye]
        exact pctFloat_cross ht ht2 hdle (by omega) (by omega)
      · intro p hp
        rcases List.mem_append.mp hp with hp1 | hp2
        · obtain ⟨_, d, hdle, ht, hpe⟩ := hilfacts p hp1
          exact ⟨idx, d, (discoverImages f.listing).length,
            le_refl idx, by simp at hlen; omega, ht, hdle, hpe⟩
        · obtain ⟨g, d2, t2, hg, hg1, ht2, hd2, hpe⟩ := frfacts p hp2
          exact ⟨g, d2, t2, by omega, hg1, ht2, hd2, hpe⟩

lemma imgLoop_prompt {cfg : Cfg} {total f t : ℕ} :
    ∀ {imgs : List String} {i done : ℕ} {s : St} {g j : ℕ} {img' pr : String},
      Ev.inferCall g j img' pr ∈ (imgLoop cfg total f t imgs i done s).evs →
      pr = (if cfg.promptOf g j = "" then DEFAULT_PROMPT else cfg.promptOf g j) := by
  intro imgs
  induction imgs with
  | nil => intro _ _ _ _ _ _ _ h; simp [imgLoop_nil] at h
  | cons img rest ih =>
    intro i done s g j img' pr h
    cases hfl : flagAt cfg.stop s.reads with
    | false =>
      rw [imgLoop_break total f t img rest i done hfl] at h
      simp at h
    | true =>
      by_cases hc : ((s.fs (captionPathOf img)).isSome && !cfg.overwrite) = true
      · rw [imgLoop_skip total f t rest i done hfl hc] at h
        rcases List.mem_cons.mp h with h2 | h2
        · simp at h2
        · exact ih h2
      · have hc' : ((s.fs (captionPathOf img)).isSome && !cfg.overwrite) = false :=
          Bool.eq_false_iff.mpr hc
        rcases ha : cfg.attemptOf f i with e | e | e | c2
        · rw [imgLoop_readFail total f t rest i done hfl hc' ha] at h
          simp only [List.mem_cons] at h
          rcases h with h2 | h2 | h2 | h2
          · simp at h2
          · simp at h2
          · simp at h2
          · exact ih h2
        · rw [imgLoop_callFail total f t rest i done hfl hc' ha] at h
          simp only [List.mem_cons] at h
          rcases h with h2 | h2 | h2 | h2 | h2
          · simp only [Ev.inferCall.injEq] at h2
            obtain ⟨rfl, rfl, -, rfl⟩ := h2
            rfl
          · simp at h2
          · simp at h2
          · simp at h2
          · exact ih h2
        · rw [imgLoop_extractFail total f t rest i done hfl hc' ha] at h
          simp only [List.mem_cons] at h
          rcases h with h2 | h2 | h2 | h2 | h2 | h2
          · simp only [Ev.inferCall.injEq] at h2
            obtain ⟨rfl, rfl, -, rfl⟩ := h2
            rfl
          · simp at h2
          · simp at h2
          · simp at h2
          · simp at h2
          · exact ih h2
        · rw [imgLoop_success total f t rest i done hfl hc' ha] at h
          simp only [List.mem_cons] at h
          rcases h with h2 | h2 | h2 | h2 | h2 | h2
          · simp only [Ev.inferCall.injEq] at h2
            obtain ⟨rfl, rfl, -, rfl⟩ := h2
            rfl
          · simp at h2
          · simp at h2
          · simp at h2
          · simp at h2
          · exact ih h2

lemma folderLoop_prompt {cfg : Cfg} {total : ℕ} :
    ∀ {folders : List Folder} {idx : ℕ} {s : St} {g j : ℕ} {img' pr : String},
      Ev.inferCall g j img' pr ∈ (folderLoop cfg total folders idx s).evs →
      pr = (if cfg.promptOf g j = "" then DEFAULT_PROMPT else cfg.promptOf g j) := by
  intro folders
  induction folders with
  | nil => intro _ _ _ _ _ _ h; simp [folderLoop_nil] at h
  | cons f rest ih =>
    intro idx s g j img' pr h
    cases hfl : flagAt cfg.stop s.reads with
    | false =>
      rw [folderLoop_break total f rest idx hfl] at h
      simp at h
    | true =>
      rw [folderLoop_cons2 total f rest idx hfl] at h
      simp only [List.mem_cons, List.mem_append] at h
      rcases h with h2 | h2 | h2 | h2
      · simp at h2
      · exact imgLoop_prompt h2
      · simp at h2
      · exact ih h2

lemma imgLoop_writeCap {cfg : Cfg} {total f t : ℕ} :
    ∀ {imgs : List String} {i done : ℕ} {s : St} {g j : ℕ} {p c : String},
      Ev.writeCap g j p c ∈ (imgLoop cfg total f t imgs i done s).evs →
      cfg.attemptOf g j = Attempt.success c := by
  intro imgs
  induction imgs with
  | nil => intro _ _ _ _ _ _ _ h; simp [imgLoop_nil] at h
  | cons img rest ih =>
    intro i done s g j p c h
    cases hfl : flagAt cfg.stop s.reads with
    | false =>
      rw [imgLoop_break total f t img rest i done hfl] at h
      simp at h
    | true =>
      by_cases hc : ((s.fs (captionPathOf img)).isSome && !cfg.overwrite) = true
      · rw [imgLoop_skip total f t rest i done hfl hc] at h
        rcases List.mem_cons.mp h with h2 | h2
        · simp at h2
        · exact ih h2
      · have hc' : ((s.fs (captionPathOf img)).isSome && !cfg.overwrite) = false :=
          Bool.eq_false_iff.mpr hc
        rcases ha : cfg.attemptOf f i with e | e | e | c2
        · rw [imgLoop_readFail total f t rest i done hfl hc' ha] at h
          simp only [List.mem_cons] at h
          rcases h with h2 | h2 | h2 | h2
          · simp at h2
          · simp at h2
          · simp at h2
          · exact ih h2
        · rw [imgLoop_callFail total f t rest i done hfl hc' ha] at h
          simp only [List.mem_cons] at h
          rcases h with h2 | h2 | h2 | h2 | h2
          · simp at h2
          · simp at h2
          · simp at h2
          · simp at h2
          · exact ih h2
        · rw [imgLoop_extractFail total f t rest i done hfl hc' ha] at h
          simp only [List.mem_cons] at h
          rcases h with h2 | h2 | h2 | h2 | h2 | h2
          · simp at h2
          · simp at h2
          · simp at h2
          · simp at h2
          · simp at h2
          · exact ih h2
        · rw [imgLoop_success total f t rest i done hfl hc' ha] at h
          simp only [List.mem_cons] at h
          rcases h with h2 | h2 | h2 | h2 | h2 | h2
          · simp at h2
          · simp only [Ev.writeCap.injEq] at h2
            obtain ⟨rfl, rfl, -, rfl⟩ := h2
            exact ha
          · simp at h2
          · simp at h2
          · simp at h2
          · exact ih h2

lemma imgLoop_trunc {cfg : Cfg} {total f t : ℕ} :
    ∀ {imgs : List String} {i done : ℕ} {s : St} {g j : ℕ} {p : String},
      Ev.extractTrunc g j p ∈ (imgLoop cfg total f t imgs i done s).evs →
      ∃ e, cfg.attemptOf g j = Attempt.extractFail e := by
  intro imgs
  induction imgs with
  | nil => intro _ _ _ _ _ _ h; simp [imgLoop_nil] at h
  | cons img rest ih =>
    intro i done s g j p h
    cases hfl : flagAt cfg.stop s.reads with
    | false =>
      rw [imgLoop_break total f t img rest i done hfl] at h
      simp at h
    | true =>
      by_cases hc : ((s.fs (captionPathOf img)).isSome && !cfg.overwrite) = true
      · rw [imgLoop_skip total f t rest i done hfl hc] at h
        rcases List.mem_cons.mp h with h2 | h2
        · simp at h2
        · exact ih h2
      · have hc' : ((s.fs (captionPathOf img)).isSome && !cfg.overwrite) = false :=
          Bool.eq_false_iff.mpr hc
        rcases ha : cfg.attemptOf f i with e | e | e | c2
        · rw [imgLoop_readFail total f t rest i done hfl hc' ha] at h
          simp only [List.mem_cons] at h
          rcases h with h2 | h2 | h2 | h2
          · simp at h2
          · simp at h2
          · simp at h2
          · exact ih h2
        · rw [imgLoop_callFail total f t rest i done hfl hc' ha] at h
          simp only [List.mem_cons] at h
          rcases h with h2 | h2 | h2 | h2 | h2
          · simp at h2
          · simp at h2
          · simp at h2
          · simp at h2
          · exact ih h2
        · rw [imgLoop_extractFail total f t rest i done hfl hc' ha] at h
          simp only [List.mem_cons] at h
          rcases h with h2 | h2 | h2 | h2 | h2 | h2
          · simp at h2
          · simp only [Ev.extractTrunc.injEq] at h2
            obtain ⟨rfl, rfl, -⟩ := h2
            exact ⟨e, ha⟩
          · simp at h2
          · simp at h2
          · simp at h2
          · exact ih h2
        · rw [imgLoop_success total f t rest i done hfl hc' ha] at h
          simp only [List.mem_cons] at h
          rcases h with h2 | h2 | h2 | h2 | h2 | h2
          · simp at h2
          · simp at h2
          · simp at h2
          · simp at h2
          · simp at h2
          · exact ih h2

lemma imgLoop_fs_change {cfg : Cfg} {total f t : ℕ} :
    ∀ {imgs : List String} {i done : ℕ} {s : St} {p : String},
      (imgLoop cfg total f t imgs i done s).st.fs p ≠ s.fs p →
      (∃ g j c, Ev.writeCap g j p c ∈ (imgLoop cfg total f t imgs i done s).evs) ∨
      (∃ g j, Ev.extractTrunc g j p ∈ (imgLoop cfg total f t imgs i done s).evs) := by
  intro imgs
  induction imgs with
  | nil => intro _ _ _ _ h; simp [imgLoop_nil] at h
  | cons img rest ih =>
    intro i done s p h
    cases hfl : flagAt cfg.stop s.reads with
    | false =>
      rw [imgLoop_break total f t img rest i done hfl] at h
      simp at h
    | true =>
      by_cases hc : ((s.fs (captionPathOf img)).isSome && !cfg.overwrite) = true
      · rw [imgLoop_skip total f t rest i done hfl hc] at h ⊢
        rcases ih h with ⟨g, j, c, hm⟩ | ⟨g, j, hm⟩
        · exact Or.inl ⟨g, j, c, List.mem_cons_of_mem _ hm⟩
        · exact Or.inr ⟨g, j, List.mem_cons_of_mem _ hm⟩
      · have hc' : ((s.fs (captionPathOf img)).isSome && !cfg.overwrite) = false :=
          Bool.eq_false_iff.mpr hc
        rcases ha : cfg.attemptOf f i with e | e | e | c2
        · rw [imgLoop_readFail total f t rest i done hfl hc' ha] at h ⊢
          rcases ih h with ⟨g, j, c, hm⟩ | ⟨g, j, hm⟩
          · refine Or.inl ⟨g, j, c, ?_⟩
            simp only [List.mem_cons]
            exact Or.inr (Or.inr (Or.inr hm))
          · refine Or.inr ⟨g, j, ?_⟩
            simp only [List.mem_cons]
            exact Or.inr (Or.inr (Or.inr hm))
        · rw [imgLoop_callFail total f t rest i done hfl hc' ha] at h ⊢
          rcases ih h with ⟨g, j, c, hm⟩ | ⟨g, j, hm⟩
          · refine Or.inl ⟨g, j, c, ?_⟩
            simp only [List.mem_cons]
            exact Or.inr (Or.inr (Or.inr (Or.inr hm)))
          · refine Or.inr ⟨g, j, ?_⟩
            simp only [List.mem_cons]
            exact Or.inr (Or.inr (Or.inr (Or.inr hm)))
        · rw [imgLoop_extractFail total f t rest i done hfl hc' ha] at h ⊢
          by_cases hpe : p = captionPathOf img
          · refine Or.inr ⟨f, i, ?_⟩
            simp only [List.mem_cons]
            exact Or.inr (Or.inl (by rw [hpe]))
          · have hfs2 : (fsWrite s.fs (captionPathOf img) "") p = s.fs p := by
              simp only [fsWrite, if_neg hpe]
            have h2 : (imgLoop cfg total f t rest (i + 1) done
                ⟨s.reads + 1, fsWrite s.fs (captionPathOf img) ""⟩).st.fs p ≠
                (fsWrite s.fs (captionPathOf img) "") p := by
              rw [hfs2]; exact h
            rcases ih h2 with ⟨g, j, c, hm⟩ | ⟨g, j, hm⟩
            · refine Or.inl ⟨g, j, c, ?_⟩
              simp only [List.mem_cons]
              exact Or.inr (Or.inr (Or.inr (Or.inr (Or.inr hm))))
            · refine Or.inr ⟨g, j, ?_⟩
              simp only [List.mem_cons]
              exact Or.inr (Or.inr (Or.inr (Or.inr (Or.inr hm))))
        · rw [imgLoop_success total f t rest i done hfl hc' ha] at h ⊢
          by_cases hpe : p = captionPathOf img
          · refine Or.inl ⟨f, i, c2, ?_⟩
            simp only [List.mem_cons]
            exact Or.inr (Or.inl (by rw [hpe]))
          · have hfs2 : (fsWrite s.fs (captionPathOf img) c2) p = s.fs p := by
              simp only [fsWrite, if_neg hpe]
            have h2 : (imgLoop cfg total f t rest (i + 1) (done + 1)
                ⟨s.reads + 1, fsWrite s.fs (captionPathOf img) c2⟩).st.fs p ≠
                (fsWrite s.fs (captionPathOf img) c2) p := by
              rw [hfs2]; exact h
            rcases ih h2 with ⟨g, j, c, hm⟩ | ⟨g, j, hm⟩
            · refine Or.inl ⟨g, j, c, ?_⟩
              simp only [List.mem_cons]
              exact Or.inr (Or.inr (Or.inr (Or.inr (Or.inr hm))))
            · refine Or.inr ⟨g, j, ?_⟩
              simp only [List.mem_cons]
              exact Or.inr (Or.inr (Or.inr (Or.inr (Or.inr hm))))

lemma folderLoop_writeCap {cfg : Cfg} {total : ℕ} :
    ∀ {folders : List Folder} {idx : ℕ} {s : St} {g j : ℕ} {p c : String},
      Ev.writeCap g j p c ∈ (folderLoop cfg total folders idx s).evs →
      cfg.attemptOf g j = Attempt.success c := by
  intro folders
  induction folders with
  | nil => intro _ _ _ _ _ _ h; simp [folderLoop_nil] at h
  | cons f rest ih =>
    intro idx s g j p c h
    cases hfl : flagAt cfg.stop s.reads with
    | false =>
      rw [folderLoop_break total f rest idx hfl] at h
      simp at h
    | true =>
      rw [folderLoop_cons2 total f rest idx hfl] at h
      simp only [List.mem_cons, List.mem_append] at h
      rcases h with h2 | h2 | h2 | h2
      · simp at h2
      · exact imgLoop_writeCap h2
      · simp at h2
      · exact ih h2

lemma folderLoop_trunc {cfg : Cfg} {total : ℕ} :
    ∀ {folders : List Folder} {idx : ℕ} {s : St} {g j : ℕ} {p : String},
      Ev.extractTrunc g j p ∈ (folderLoop cfg total folders idx s).evs →
      ∃ e, cfg.attemptOf g j = Attempt.extractFail e := by
  intro folders
  induction folders with
  | nil => intro _ _ _ _ _ h; simp [folderLoop_nil] at h
  | cons f rest ih =>
    intro idx s g j p h
    cases hfl : flagAt cfg.stop s.reads with
    | false =>
      rw [folderLoop_break total f rest idx hfl] at h
      simp at h
    | true =>
      rw [folderLoop_cons2 total f rest idx hfl] at h
      simp only [List.mem_cons, List.mem_append] at h
      rcases h with h2 | h2 | h2 | h2
      · simp at h2
      · exact imgLoop_trunc h2
      · simp at h2
      · exact ih h2

lemma folderLoop_fs_change {cfg : Cfg} {total : ℕ} :
    ∀ {folders : List Folder} {idx : ℕ} {s : St} {p : String},
      (folderLoop cfg total folders idx s).st.fs p ≠ s.fs p →
      (∃ g j c, Ev.writeCap g j p c ∈ (folderLoop cfg total folders idx s).evs) ∨
      (∃ g j, Ev.extractTrunc g j p ∈ (folderLoop cfg total folders idx s).evs) := by
  intro folders
  induction folders with
  | nil => intro _ _ _ h; simp [folderLoop_nil] at h
  | cons f rest ih =>
    intro idx s p h
    cases hfl : flagAt cfg.stop s.reads with
    | false =>
      rw [folderLoop_break total f rest idx hfl] at h
      simp at h
    | true =>
      rw [folderLoop_cons2 total f rest idx hfl] at h ⊢
      by_cases hmid : (ilOf cfg total idx f s).st.fs p = s.fs p
      · have h2 : (frOf cfg total idx f rest s).st.fs p ≠
            ((⟨(ilOf cfg total idx f s).st.reads + 1,
               (ilOf cfg total idx f s).st.fs⟩ : St)).fs p := by
          intro he
          exact h (by rw [he]; exact hmid)
        rcases ih h2 with ⟨g, j, c, hm⟩ | ⟨g, j, hm⟩
        · refine Or.inl ⟨g, j, c, ?_⟩
          simp only [List.mem_cons, List.mem_append]
          exact Or.inr (Or.inr (Or.inr hm))
        · refine Or.inr ⟨g, j, ?_⟩
          simp only [List.mem_cons, List.mem_append]
          exact Or.inr (Or.inr (Or.inr hm))
      · have h2 : (ilOf cfg total idx f s).st.fs p ≠
            ((⟨s.reads + 1, s.fs⟩ : St)).fs p := hmid
        rcases imgLoop_fs_change h2 with ⟨g, j, c, hm⟩ | ⟨g, j, hm⟩
        · refine Or.inl ⟨g, j, c, ?_⟩
          simp only [List.mem_cons, List.mem_append]
          exact Or.inr (Or.inl hm)
        · refine Or.inr ⟨g, j, ?_⟩
          simp only [List.mem_cons, List.mem_append]
          exact Or.inr (Or.inl hm)

lemma discover_mem (L : List String) (x : String) :
    x ∈ discoverImages L ↔ x ∈ L ∧ isImageName x = true := by
  simp only [discoverImages, isImageName, globMatch, List.mem_flatMap,
    List.mem_append, List.mem_filter, List.any_eq_true, Bool.and_eq_true,
    Bool.or_eq_true, Bool.not_eq_true']
  constructor
  · rintro ⟨e, he, ⟨hx, hsw, hew⟩ | ⟨hx, hsw, hew⟩⟩
    · exact ⟨hx, hsw, e, he, Or.inl hew⟩
    · exact ⟨hx, hsw, e, he, Or.inr hew⟩
  · rintro ⟨hx, hsw, e, he, hew | hew⟩
    · exact ⟨e, he, Or.inl ⟨hx, hsw, hew⟩⟩
    · exact ⟨e, he, Or.inr ⟨hx, hsw, hew⟩⟩

lemma handledIn_nil_of_ne {f : ℕ} : ∀ {l : List Ev},
    (∀ ev ∈ l, evFolder ev ≠ f) → handledIn f l = [] := by
  intro l h
  rw [handledIn, List.filterMap_eq_nil]
  intro ev hev
  have h2 := h ev hev
  cases ev with
  | skip f' i img => simp [evFolder] at h2; simp [h2]
  | inferCall f' i img pr => simp [evFolder] at h2; simp [h2]
  | readErr f' i img e => simp [evFolder] at h2; simp [h2]
  | scanStat f' => rfl
  | callErr f' i img e => rfl
  | extractTrunc f' i p => rfl
  | extractErr f' i img e => rfl
  | writeCap f' i p c => rfl
  | okLog f' i img => rfl
  | progress f' i p => rfl
  | folderStat f' i d t => rfl
  | finalStat f' b => rfl

lemma imgLoop_handledIn {cfg : Cfg} {total f t : ℕ} (hs : cfg.stop = none) :
    ∀ {imgs : List String} {i done : ℕ} {s : St},
      handledIn f (imgLoop cfg total f t imgs i done s).evs = imgs := by
  intro imgs
  induction imgs with
  | nil => intro i done s; simp [imgLoop_nil, handledIn]
  | cons img rest ih =>
    intro i done s
    have hfl : flagAt cfg.stop s.reads = true := by rw [hs]; rfl
    by_cases hc : ((s.fs (captionPathOf img)).isSome && !cfg.overwrite) = true
    · rw [imgLoop_skip total f t rest i done hfl hc]
      simp [handledIn, List.filterMap_cons] at ih ⊢
      exact ih
    · have hc' : ((s.fs (captionPathOf img)).isSome && !cfg.overwrite) = false :=
        Bool.eq_false_iff.mpr hc
      rcases ha : cfg.attemptOf f i with e | e | e | c2
      · rw [imgLoop_readFail total f t rest i done hfl hc' ha]
        simp [handledIn, List.filterMap_cons] at ih ⊢
        exact ih
      · rw [imgLoop_callFail total f t rest i done hfl hc' ha]
        simp [handledIn, List.filterMap_cons] at ih ⊢
        exact ih
      · rw [imgLoop_extractFail total f t rest i done hfl hc' ha]
        simp [handledIn, List.filterMap_cons] at ih ⊢
        exact ih
      · rw [imgLoop_success total f t rest i done hfl hc' ha]
        simp [handledIn, List.filterMap_cons] at ih ⊢
        exact ih

lemma folderLoop_handledIn {cfg : Cfg} {total : ℕ} (hs : cfg.stop = none) :
    ∀ {folders : List Folder} {idx : ℕ} {s : St} {g : ℕ} {fl : Folder},
      idx ≤ g → folders.get? (g - idx) = some fl →
      handledIn g (folderLoop cfg total folders idx s).evs =
        discoverImages fl.listing := by
  intro folders
  induction folders with
  | nil => intro idx s g fl hle hget; simp at hget
  | cons f rest ih =>
    intro idx s g fl hle hget
    have hfl : flagAt cfg.stop s.reads = true := by rw [hs]; rfl
    rw [folderLoop_cons2 total f rest idx hfl]
    have hsplit : handledIn g (Ev.scanStat idx ::
        ((ilOf cfg total idx f s).evs ++
          Ev.finalStat idx (flagAt cfg.stop (ilOf cfg total idx f s).st.reads) ::
            (frOf cfg total idx f rest s).evs)) =
        handledIn g (ilOf cfg total idx f s).evs ++
          handledIn g (frOf cfg total idx f rest s).evs := by
      simp [handledIn, List.filterMap_cons, List.filterMap_append]
    rw [hsplit]
    rcases Nat.eq_or_lt_of_le hle with heq | hlt
    · subst heq
      rw [Nat.sub_self] at hget
      have hfl2 : f = fl := by simpa using hget
      subst hfl2
      have hrest : handledIn idx (frOf cfg total idx f rest s).evs = [] := by
        refine handledIn_nil_of_ne ?_
        intro ev hev
        have := folderLoop_tags hev
        omega
      have hil2 : handledIn idx (ilOf cfg total idx f s).evs =
          discoverImages f.listing := imgLoop_handledIn hs
      rw [hrest, hil2, List.append_nil]
    · have hil : handledIn g (ilOf cfg total idx f s).evs = [] := by
        refine handledIn_nil_of_ne ?_
        intro ev hev
        have := (imgLoop_tags hev).1
        omega
      rw [hil, List.nil_append]
      have hget2 : rest.get? (g - (idx + 1)) = some fl := by
        have harith : g - idx = (g - (idx + 1)) + 1 := by omega
        rw [harith] at hget
        simpa using hget
      exact ih (by omega) hget2

/-! Claim theorems. -/

/-- C1: in a run with overwrite = false, (i) an image that was skipped
(because its caption file existed when it was considered) is never the
subject of an inference call anywhere in the run; (ii) from any moment of
the run onward, a caption file that exists with some content keeps exactly
that content, so the file found at skip time is byte-identical at the end
of the run; (iii) the skip iteration consumes the image by only recording
the skip and continuing on the remaining images with the done counter
incremented (counted as already done), leaving state otherwise untouched. -/
theorem C1_overwrite_false_skip (cfg : Cfg) (hov : cfg.overwrite = false) :
    (∀ queue fs0 g j img2, Ev.skip g j img2 ∈ (runBatchFn cfg queue fs0).evs →
      ∀ img' pr, Ev.inferCall g j img' pr ∉ (runBatchFn cfg queue fs0).evs) ∧
    (∀ total folders idx s p c, s.fs p = some c →
      (folderLoop cfg total folders idx s).st.fs p = some c) ∧
    (∀ total fI t img rest i done s, flagAt cfg.stop s.reads = true →
      (s.fs (captionPathOf img)).isSome = true →
      imgLoop cfg total fI t (img :: rest) i done s =
        ⟨(imgLoop cfg total fI t rest (i + 1) (done + 1) ⟨s.reads + 1, s.fs⟩).st,
         (imgLoop cfg total fI t rest (i + 1) (done + 1) ⟨s.reads + 1, s.fs⟩).done,
         Ev.skip fI i img ::
           (imgLoop cfg total fI t rest (i + 1) (done + 1) ⟨s.reads + 1, s.fs⟩).evs⟩) := by
  refine ⟨?_, ?_, ?_⟩
  · intro queue fs0 g j img2 hskip img' pr hinf
    exact folderLoop_no_skip_infer hskip hinf
  · intro total folders idx s p c h
    exact folderLoop_preserve hov h
  · intro total fI t img rest i done s hfl hcap
    refine imgLoop_skip total fI t rest i done hfl ?_
    rw [hcap, hov]
    rfl

/-- Witness for C1: in a concrete run over a.png (already captioned with
content "old") and b.png, the skipped image a.png is never sent to the
inference client and a.txt still holds "old" at the end of the run. -/
theorem C1_witness :
    (Ev.inferCall 0 0 "a.png" "P" ∉ (runBatchFn cfgOk queueSkipTwo fsWithA).evs) ∧
    (runBatchFn cfgOk queueSkipTwo fsWithA).st.fs "a.txt" = some "old" :=
  ⟨(C1_overwrite_false_skip cfgOk rfl).1 queueSkipTwo fsWithA 0 0 "a.png"
      (by decide) "a.png" "P",
   (C1_overwrite_false_skip cfgOk rfl).2.1 queueSkipTwo.length queueSkipTwo 0
      ⟨0, fsWithA⟩ "a.txt" "old" (by decide)⟩

/-- C2: for a live server handle, stop_server performs exactly a SIGTERM to
the whole process group (os.killpg of os.getpgid, never a single-pid kill),
a daemon-thread spawn whose body is the process wait, and a 100 ms UI
reschedule; no action on the calling thread blocks on process exit, and the
action list takes no exit-duration input, so the call returns after this
fixed action sequence regardless of how long the process takes to exit. -/
theorem C2_stop_server_group_signal_nonblocking (p : ProcHandle) :
    stopServer (some p) =
      [MainAct.killPG (getpgidOf p) Sig.sigterm,
       MainAct.spawnThread [BgAct.waitProc p.pid],
       MainAct.afterSchedule 100] ∧
    MainAct.killPG (getpgidOf p) Sig.sigterm ∈ stopServer (some p) ∧
    MainAct.spawnThread [BgAct.waitProc p.pid] ∈ stopServer (some p) ∧
    ((stopServer (some p)).all fun a => !a.isBlocking) = true := by
  refine ⟨rfl, ?_, ?_, rfl⟩
  · exact List.mem_cons_self _ _
  · exact List.mem_cons_of_mem _ (List.mem_cons_self _ _)

/-- C3: if the displayed status list of a run marks folder i as Stopped
(which is exactly the observable outcome of a stop request that arrives
while folder i is being processed: its top-of-loop flag read was true and
its end-of-folder flag read was false), then every earlier folder ended
Done, folder i did not end Done, and every later folder is still Pending —
a later folder is never started once the flag has been observed false. -/
theorem C3_stop_during_folder_pattern (cfg : Cfg) (queue : List Folder)
    (fs0 : Fs) (i : ℕ)
    (h : (runBatchFn cfg queue fs0).statuses.get? i = some FStatus.stopped) :
    (∀ j, j < i →
      (runBatchFn cfg queue fs0).statuses.get? j = some FStatus.done) ∧
    (∀ j, i < j → j < queue.length →
      (runBatchFn cfg queue fs0).statuses.get? j = some FStatus.pending) ∧
    (runBatchFn cfg queue fs0).statuses.get? i ≠ some FStatus.done := by
  have hmain := folderLoop_stopped_pattern h
  refine ⟨hmain.1, hmain.2, ?_⟩
  rw [h]
  simp

/-- Witness for C3: with three one-image folders and the flag reading false
from the fifth read on, folder 1 ends Stopped, folder 0 ended Done and
folder 2 stays Pending. -/
theorem C3_witness :
    (runBatchFn cfgStop5 queueThree fsEmpty).statuses.get? 0 =
        some FStatus.done ∧
    (runBatchFn cfgStop5 queueThree fsEmpty).statuses.get? 2 =
        some FStatus.pending := by
  have h := C3_stop_during_folder_pattern cfgStop5 queueThree fsEmpty 1 (by decide)
  exact ⟨h.1 0 (by decide), h.2.1 2 (by decide) (by decide)⟩

/-- C9: when the up-front connectivity probe (client.models.list) raises,
toggle_batch shows the connection error and returns: exactly one probe is
issued, no worker thread or per-image work is started, the caption
filesystem is untouched and every queue item remains Pending. -/
theorem C9_probe_failure_no_run (cfg : Cfg) (queue : List Folder) (fs0 : Fs)
    (e : String) :
    toggleBatch cfg queue fs0 false (Except.error e) =
      ⟨false, [ToggleEv.probeCall, ToggleEv.connErrShown e], none⟩ ∧
    (toggleBatch cfg queue fs0 false (Except.error e)).run = none ∧
    (∀ p, finalFsOf (toggleBatch cfg queue fs0 false (Except.error e)) fs0 p =
      fs0 p) ∧
    statusesOf (toggleBatch cfg queue fs0 false (Except.error e)) queue =
      queue.map (fun _ => FStatus.pending) ∧
    (toggleBatch cfg queue fs0 false (Except.error e)).uiEvs.count
      ToggleEv.probeCall = 1 := by
  refine ⟨rfl, rfl, fun p => rfl, rfl, ?_⟩
  simp [toggleBatch, List.count_cons]

/-- Counterexample for C4 as stated: a configuration whose model path does
not exist (only the binary exists) still spawns a server process —
start_server performs no path validation before Popen, so "no child process
is ever created from such a configuration" is false. -/
theorem C4_counterexample :
    existsBinOnly srvCfgX.model = false ∧
    startServer existsBinOnly srvCfgX =
      StartOutcome.spawned (buildCmd srvCfgX) := by decide

/-- C4 amended: start_server validates nothing up front; it always attempts
the spawn with the command built from the configuration.  The spawn attempt
raises (caught and logged, no process) exactly when the binary path — the
head of the argv — does not exist; the model path is never consulted by the
spawn, so a missing model path does not prevent process creation. -/
theorem C4_no_path_validation (pathEx : String → Bool) (c : SrvCfg) :
    (buildCmd c).headD "" = c.bin ∧
    (pathEx c.bin = true →
      startServer pathEx c = StartOutcome.spawned (buildCmd c)) ∧
    (pathEx c.bin = false →
      startServer pathEx c = StartOutcome.errorLogged "FileNotFoundError") := by
  have hhead : (buildCmd c).headD "" = c.bin := by simp [buildCmd]
  refine ⟨hhead, ?_, ?_⟩
  · intro h
    have hcond : popenSpawns pathEx (buildCmd c) = true := by
      unfold popenSpawns
      rw [hhead]
      exact h
    simp [startServer, hcond]
  · intro h
    have hcond : popenSpawns pathEx (buildCmd c) = false := by
      unfold popenSpawns
      rw [hhead]
      exact h
    simp [startServer, hcond]

/-- Witness for C4 amended: when no path exists at all the spawn attempt
fails and the error is logged. -/
theorem C4_witness :
    startServer existsNothing srvCfgX =
      StartOutcome.errorLogged "FileNotFoundError" :=
  (C4_no_path_validation existsNothing srvCfgX).2.2 rfl

/-- Counterexample for C5 as stated: with the directory listing
["a.jpg", "b.png"] the run handles b.png before a.jpg, because run_batch
concatenates the glob results pattern by pattern (png before jpg) and never
sorts — the handled order is not sorted-path order even though
"a.jpg" < "b.png". -/
theorem C5_counterexample :
    handledIn 0 (runBatchFn cfgOk queueAB fsEmpty).evs = ["b.png", "a.jpg"] ∧
    lexLt "a.jpg".data "b.png".data = true ∧
    handledIn 0 (runBatchFn cfgOk queueAB fsEmpty).evs ≠ ["a.jpg", "b.png"] := by
  decide

/-- C5 amended: the set of images a run handles in a folder is exactly the
listing entries matching the fixed extension set png, jpg, jpeg, webp, bmp
in either case variant (non-hidden), and — in a run that is never stopped —
the images of folder g are handled exactly in discovery order, which is the
glob-pattern-grouped order of discoverImages (lower-case then upper-case
pattern for each extension, in the fixed pattern order), not sorted-path
order. -/
theorem C5_discovery_set_and_order (cfg : Cfg) (hs : cfg.stop = none) :
    (∀ (L : List String) (x : String),
      x ∈ discoverImages L ↔ x ∈ L ∧ isImageName x = true) ∧
    (∀ queue fs0 g fl, queue.get? g = some fl →
      handledIn g (runBatchFn cfg queue fs0).evs = discoverImages fl.listing) := by
  refine ⟨discover_mem, ?_⟩
  intro queue fs0 g fl hget
  have hget2 : queue.get? (g - 0) = some fl := by simpa using hget
  exact folderLoop_handledIn hs (Nat.zero_le g) hget2

/-- Witness for C5 amended: the concrete run over ["a.jpg", "b.png"]
handles exactly the discovered images in discovery order. -/
theorem C5_witness :
    handledIn 0 (runBatchFn cfgOk queueAB fsEmpty).evs =
      discoverImages ["a.jpg", "b.png"] :=
  (C5_discovery_set_and_order cfgOk rfl).2 queueAB fsEmpty 0
    ⟨"d", ["a.jpg", "b.png"]⟩ rfl

/-- Counterexample for C6 as stated: a skipped image emits no progress
update at all — in a run whose only image is skipped (its caption already
exists, overwrite false), the image is handled yet the progress-value
sequence is empty, so "after every image handled (skipped or processed) a
progress update is emitted" is false. -/
theorem C6_counterexample :
    Ev.skip 0 0 "a.png" ∈ (runBatchFn cfgOk queueOne fsWithA).evs ∧
    progressVals (runBatchFn cfgOk queueOne fsWithA).evs = [] := by decide

/-- C6 amended: after each non-skipped image the loop emits, before any
event of the remaining images, first the attempt events (which contain no
progress event), then one progress update whose value is the integer
truncation of the IEEE-754 binary64 evaluation of
(folderIndex + doneInFolder/totalInFolder)/totalFolders*100
(pctFloat, with the done counter as updated by this image), then the
per-folder done/total status; a skipped image contributes only its skip
marker and no progress update. -/
theorem C6_progress_after_processed (cfg : Cfg) (total fI t : ℕ)
    (img : String) (rest : List String) (i done : ℕ) (s : St)
    (hfl : flagAt cfg.stop s.reads = true) :
    (((s.fs (captionPathOf img)).isSome && !cfg.overwrite) = true →
      (imgLoop cfg total fI t (img :: rest) i done s).evs =
        Ev.skip fI i img ::
          (imgLoop cfg total fI t rest (i + 1) (done + 1)
            ⟨s.reads + 1, s.fs⟩).evs) ∧
    (((s.fs (captionPathOf img)).isSome && !cfg.overwrite) = false →
      ∃ pre done2 s2, progressVals pre = [] ∧ done ≤ done2 ∧ done2 ≤ done + 1 ∧
        (imgLoop cfg total fI t (img :: rest) i done s).evs =
          pre ++ Ev.progress fI i (pctFloat fI done2 t total)
            :: Ev.folderStat fI i done2 t
            :: (imgLoop cfg total fI t rest (i + 1) done2 s2).evs) := by
  constructor
  · intro hc
    rw [imgLoop_skip total fI t rest i done hfl hc]
  · intro hc'
    rcases ha : cfg.attemptOf fI i with e | e | e | c2
    · refine ⟨[Ev.readErr fI i img e], done, ⟨s.reads + 1, s.fs⟩,
        by simp [progressVals], Nat.le_refl _, Nat.le_succ _, ?_⟩
      rw [imgLoop_readFail total fI t rest i done hfl hc' ha]
      rfl
    · refine ⟨[Ev.inferCall fI i img
          (if cfg.promptOf fI i = "" then DEFAULT_PROMPT else cfg.promptOf fI i),
          Ev.callErr fI i img e], done, ⟨s.reads + 1, s.fs⟩,
        by simp [progressVals], Nat.le_refl _, Nat.le_succ _, ?_⟩
      rw [imgLoop_callFail total fI t rest i done hfl hc' ha]
      rfl
    · refine ⟨[Ev.inferCall fI i img
          (if cfg.promptOf fI i = "" then DEFAULT_PROMPT else cfg.promptOf fI i),
          Ev.extractTrunc fI i (captionPathOf img),
          Ev.extractErr fI i img e], done,
        ⟨s.reads + 1, fsWrite s.fs (captionPathOf img) ""⟩,
        by simp [progressVals], Nat.le_refl _, Nat.le_succ _, ?_⟩
      rw [imgLoop_extractFail total fI t rest i done hfl hc' ha]
      rfl
    · refine ⟨[Ev.inferCall fI i img
          (if cfg.promptOf fI i = "" then DEFAULT_PROMPT else cfg.promptOf fI i),
          Ev.writeCap fI i (captionPathOf img) c2,
          Ev.okLog fI i img], done + 1,
        ⟨s.reads + 1, fsWrite s.fs (captionPathOf img) c2⟩,
        by simp [progressVals], Nat.le_succ _, Nat.le_refl _, ?_⟩
      rw [imgLoop_success total fI t rest i done hfl hc' ha]
      rfl

/-- Witness for C6 amended: instantiated at a concrete processed image (no
caption present, flag true), the emitted block exists as described. -/
theorem C6_witness :
    ∃ pre done2 s2, progressVals pre = [] ∧ 0 ≤ done2 ∧ done2 ≤ 0 + 1 ∧
      (imgLoop cfgOk 1 0 1 ("a.png" :: []) 0 0 ⟨0, fsEmpty⟩).evs =
        pre ++ Ev.progress 0 0 (pctFloat 0 done2 1 1)
          :: Ev.folderStat 0 0 done2 1
          :: (imgLoop cfgOk 1 0 1 [] (0 + 1) done2 s2).evs :=
  (C6_progress_after_processed cfgOk 1 0 1 "a.png" [] 0 0 ⟨0, fsEmpty⟩
    rfl).2 (by decide)

/-- Counterexample for C7 as stated: a run whose single folder completes
without any cancellation (final status Done) but whose only image is
skipped emits no progress value at all, so the value 100 is not reached
even though every folder completed without cancellation — the "exactly
when" of the claim fails. -/
theorem C7_counterexample :
    (runBatchFn cfgOk queueOne fsWithA).statuses = [FStatus.done] ∧
    progressVals (runBatchFn cfgOk queueOne fsWithA).evs = [] := by decide

/-- C7 amended: within any run whose queue has fewer than 2^53 folders, the
sequence of progress percentages pushed to the progress bar is monotonically
non-decreasing and never exceeds 100 (each value being the binary64
evaluation of line 642 truncated by int()); the original "reaches 100
exactly when every folder completes without cancellation" fails in both
directions (see the counterexample for one of them). -/
theorem C7_progress_monotone (cfg : Cfg) (queue : List Folder) (fs0 : Fs)
    (hq : queue.length < 2 ^ 53) :
    List.Chain' (· ≤ ·) (progressVals (runBatchFn cfg queue fs0).evs) ∧
    ∀ p ∈ progressVals (runBatchFn cfg queue fs0).evs, p ≤ 100 := by
  unfold runBatchFn
  obtain ⟨hc, hform⟩ :=
    @folderLoop_progress_facts cfg queue.length queue 0 ⟨0, fs0⟩ (by omega) hq
  refine ⟨hc, ?_⟩
  intro p hp
  obtain ⟨g, d, t, hg, hg1, ht, hd, hpe⟩ := hform p hp
  rw [hpe]
  exact pctFloat_le_100 ht hd hg1 hq

/-- Witness for C7 amended at a concrete run. -/
theorem C7_witness :
    queueOne.length < 2 ^ 53 ∧
    (List.Chain' (· ≤ ·) (progressVals (runBatchFn cfgOk queueOne fsEmpty).evs) ∧
      ∀ p ∈ progressVals (runBatchFn cfgOk queueOne fsEmpty).evs, p ≤ 100) :=
  ⟨by decide, C7_progress_monotone cfgOk queueOne fsEmpty (by decide)⟩

/-- Counterexample for C8 as stated: with the prompt widget holding "A"
when the folder starts (read for image 0) and edited to "B" before image 1
is reached, the inference call for image 1 uses "B", not the prompt as it
stood when the folder began processing — prompts are read per image, not
snapshotted per folder. -/
theorem C8_counterexample :
    Ev.inferCall 0 0 "i1.png" "A" ∈ (runBatchFn cfgEdit queueTwo fsEmpty).evs ∧
    Ev.inferCall 0 1 "i2.png" "B" ∈ (runBatchFn cfgEdit queueTwo fsEmpty).evs ∧
    ("B" : String) ≠ "A" := by decide

/-- C8 amended: every inference call of a run uses the prompt read from the
WorkItem immediately before that very image's request (item.get_prompt() at
line 623, inside the per-image loop), with the built-in DEFAULT_PROMPT
substituted when that reading is empty; edits to the prompt while a folder
is mid-run therefore affect the folder's remaining images. -/
theorem C8_prompt_read_per_image (cfg : Cfg) (queue : List Folder) (fs0 : Fs)
    (g j : ℕ) (img pr : String)
    (h : Ev.inferCall g j img pr ∈ (runBatchFn cfg queue fs0).evs) :
    pr = if cfg.promptOf g j = "" then DEFAULT_PROMPT else cfg.promptOf g j :=
  folderLoop_prompt h

/-- Witness for C8 amended: in a run whose prompt widget is empty, the
issued prompt is the built-in default. -/
theorem C8_witness :
    DEFAULT_PROMPT =
      if cfgEmptyPrompt.promptOf 0 0 = "" then DEFAULT_PROMPT
      else cfgEmptyPrompt.promptOf 0 0 :=
  C8_prompt_read_per_image cfgEmptyPrompt queueOne fsEmpty 0 0 "a.png"
    DEFAULT_PROMPT (by decide)

/-- Counterexample for C10 as stated: when response extraction raises
(resp.choices[0].message.content is null), the caption file has already
been opened with mode "w", so it is created (here: truncated to empty) even
though the captioning attempt failed — "the caption file is neither created
nor modified" is false for extraction failures. -/
theorem C10_counterexample :
    fsEmpty "a.txt" = none ∧
    (runBatchFn cfgNone queueOne fsEmpty).st.fs "a.txt" = some "" := by decide

/-- C10 amended: (i) a caption write event carries exactly the text of a
successful inference attempt for that image — the file receives content
only after a successful response; (ii) a truncation event occurs only for
an image whose response extraction raised; (iii) the caption filesystem
changes only at paths named by a write or truncation event; hence (iv) an
image whose read or whose inference request raised leaves every caption
file untouched; and (v) failures do not abort the folder: in a run that is
never stopped, every discovered image of every folder is still handled. -/
theorem C10_failure_file_semantics (cfg : Cfg) (queue : List Folder) (fs0 : Fs) :
    (∀ g j p c, Ev.writeCap g j p c ∈ (runBatchFn cfg queue fs0).evs →
      cfg.attemptOf g j = Attempt.success c) ∧
    (∀ g j p, Ev.extractTrunc g j p ∈ (runBatchFn cfg queue fs0).evs →
      ∃ e, cfg.attemptOf g j = Attempt.extractFail e) ∧
    (∀ p, (runBatchFn cfg queue fs0).st.fs p ≠ fs0 p →
      (∃ g j c, Ev.writeCap g j p c ∈ (runBatchFn cfg queue fs0).evs) ∨
      (∃ g j, Ev.extractTrunc g j p ∈ (runBatchFn cfg queue fs0).evs)) ∧
    (∀ g j e p c,
      (cfg.attemptOf g j = Attempt.readFail e ∨
        cfg.attemptOf g j = Attempt.callFail e) →
      Ev.writeCap g j p c ∉ (runBatchFn cfg queue fs0).evs ∧
      Ev.extractTrunc g j p ∉ (runBatchFn cfg queue fs0).evs) ∧
    (cfg.stop = none → ∀ g fl, queue.get? g = some fl →
      handledIn g (runBatchFn cfg queue fs0).evs = discoverImages fl.listing) := by
  refine ⟨?_, ?_, ?_, ?_, ?_⟩
  · intro g j p c h
    exact folderLoop_writeCap h
  · intro g j p h
    exact folderLoop_trunc h
  · intro p h
    exact folderLoop_fs_change h
  · intro g j e p c hfail
    constructor
    · intro hw
      have hsucc := folderLoop_writeCap hw
      rcases hfail with hf | hf <;> rw [hf] at hsucc <;> exact Attempt.noConfusion hsucc
    · intro ht
      obtain ⟨e2, hex⟩ := folderLoop_trunc ht
      rcases hfail with hf | hf <;> rw [hf] at hex <;> exact Attempt.noConfusion hex
  · intro hs g fl hget
    have hget2 : queue.get? (g - 0) = some fl := by simpa using hget
    exact folderLoop_handledIn hs (Nat.zero_le g) hget2

/-- Witness for C10 amended: in a run whose first image fails at the image
read and whose second succeeds, the successful write is certified by the
success attempt, and the failed image produced neither a write nor a
truncation of its caption file. -/
theorem C10_witness :
    cfgMix.attemptOf 0 1 = Attempt.success "cap" ∧
    (Ev.writeCap 0 0 (captionPathOf "i1.png") "cap" ∉
      (runBatchFn cfgMix queueTwo fsEmpty).evs ∧
     Ev.extractTrunc 0 0 (captionPathOf "i1.png") ∉
      (runBatchFn cfgMix queueTwo fsEmpty).evs) :=
  ⟨(C10_failure_file_semantics cfgMix queueTwo fsEmpty).1 0 1
      (captionPathOf "i2.png") "cap" (by decide),
   (C10_failure_file_semantics cfgMix queueTwo fsEmpty).2.2.2.1 0 0 "io"
      (captionPathOf "i1.png") "cap" (Or.inl rfl)⟩
